import Mathlib

/-!
# Verification of the race-aggregation core of `horseracing-daily-digest`

Shallow embedding of the aggregation pipeline of `src/MeltAndRepour.py`
(odds parsing, course normalization, time bucketing, dedup-key construction,
pairwise merge, dedup/merge fold, Racing & Sports link enrichment) and of the
enrichment matcher `find_rs_link` of `src/ai_studio_code.py`.

Python strings are modelled as lists of Unicode code points (`List Nat`);
every string operation used by the code (`strip`, `upper`, `lower`,
`replace`, `split`, regular-expression substitution, substring containment)
is embedded explicitly on that representation.  Python `float` values are
modelled as rationals (`ℚ`): every numeric literal the claims touch is
exactly representable; IEEE-754 rounding, infinities and NaN (inputs such
as `"inf"`/`"nan"`, which CPython's `float()` would accept) are outside the
model and are treated as unparsable.
-/

set_option allowUnsafeReducibility true
attribute [semireducible] Rat.mul Rat.add Rat.inv Rat.div Rat.sub Rat.ofScientific

namespace Digest

/-- Code points of a Lean string literal, used to write concrete Python
strings in examples (`pyStr "5/2" = [53, 47, 50]`). -/
def pyStr (s : String) : List Nat := s.toList.map Char.toNat

/-- Python `str.isspace`-style whitespace test for the ASCII whitespace
characters recognised by `str.strip()` and by the regex class `\s`:
space, tab, LF, VT, FF, CR. -/
def isWS (c : Nat) : Bool := c == 32 || c == 9 || c == 10 || c == 11 || c == 12 || c == 13

/-- ASCII decimal digit test (`[0-9]`, code points 48–57). -/
def isDig (c : Nat) : Bool := 48 ≤ c && c ≤ 57

/-- `str.strip()`: drop leading and trailing whitespace. -/
def pyStrip (l : List Nat) : List Nat :=
  ((l.reverse.dropWhile isWS).reverse).dropWhile isWS

/-- `str.upper()` restricted to ASCII letters (the only case-bearing
characters the embedded code paths compare against). -/
def pyUpper (l : List Nat) : List Nat :=
  l.map (fun c => if 97 ≤ c ∧ c ≤ 122 then c - 32 else c)

/-- `str.lower()` restricted to ASCII letters. -/
def pyLower (l : List Nat) : List Nat :=
  l.map (fun c => if 65 ≤ c ∧ c ≤ 90 then c + 32 else c)

/-- `str.replace(a, b)` for single-character `a`, `b`. -/
def replChar (a b : Nat) (l : List Nat) : List Nat :=
  l.map (fun c => if c = a then b else c)

/-- Numeric value of a digit string, as `int("...")` / the integer part of
`float("...")` compute it: left fold `acc * 10 + digit`. -/
def digVal (l : List Nat) : Nat := l.foldl (fun a d => a * 10 + (d - 48)) 0

/-- Mantissa value of `float` parsing: integer digits `ip`, fractional
digits `fp`. -/
def mant (ip fp : List Nat) : ℚ :=
  (digVal ip : ℚ) + (digVal fp : ℚ) / (10 : ℚ) ^ fp.length

/-- Exponent suffix of a `float` literal after `e`/`E`: optional sign then
mandatory digits, nothing after. -/
def pyExpSigned (m : ℚ) (r : List Nat) : Option ℚ :=
  let p : Bool × List Nat :=
    match r with
    | 43 :: t => (false, t)
    | 45 :: t => (true, t)
    | t => (false, t)
  let ds := p.2.takeWhile isDig
  let r3 := p.2.dropWhile isDig
  if ds = [] ∨ r3 ≠ [] then none
  else some (m * (10 : ℚ) ^ (if p.1 then -(digVal ds : ℤ) else (digVal ds : ℤ)))

/-- Remainder of a `float` literal after the mantissa: end of string, or an
exponent part. -/
def pyExp (m : ℚ) : List Nat → Option ℚ
  | [] => some m
  | 69 :: r => pyExpSigned m r
  | 101 :: r => pyExpSigned m r
  | _ => none

/-- Unsigned body of a `float` literal: `digits [. digits] [exp]` or
`. digits [exp]`. -/
def pyFloatBody (l : List Nat) : Option ℚ :=
  let ip := l.takeWhile isDig
  let r1 := l.dropWhile isDig
  match r1 with
  | 46 :: r2 =>
      let fp := r2.takeWhile isDig
      let r3 := r2.dropWhile isDig
      if ip = [] ∧ fp = [] then none else pyExp (mant ip fp) r3
  | r1' => if ip = [] then none else pyExp (mant ip []) r1'

/-- Python `float(s)` over ℚ: surrounding whitespace, optional sign, then a
decimal literal.  (`inf`/`nan`/underscored literals are outside the model.) -/
def pyFloat (l : List Nat) : Option ℚ :=
  match pyStrip l with
  | 43 :: r => pyFloatBody r
  | 45 :: r => (pyFloatBody r).map (fun q => -q)
  | r => pyFloatBody r

/-- `s.split("/", 1)` when `"/" in s`: the part before the first `/` (47)
and the part after it. -/
def splitSlash (l : List Nat) : List Nat × List Nat :=
  (l.takeWhile (fun c => c != 47), (l.dropWhile (fun c => c != 47)).tail)

/-- `convert_odds_to_fractional` of `src/MeltAndRepour.py` (lines 113–131):
empty/whitespace input → 999; strip, uppercase, turn `-` into `/`;
`SP`/`NR` → 999; `EVS`/`EVENS` → 1; a string containing `/` is parsed as
`num/den` (999 on parse failure or `den ≤ 0`); otherwise a bare decimal `d`
gives `d - 1` when `d > 1`, else 999.  (The `except` arms of the source are
the `none` branches here.) -/
def convert_odds_to_fractional (l : List Nat) : ℚ :=
  if pyStrip l = [] then 999
  else
    let s := replChar 45 47 (pyUpper (pyStrip l))
    if s = pyStr "SP" ∨ s = pyStr "NR" then 999
    else if s = pyStr "EVS" ∨ s = pyStr "EVENS" then 1
    else if 47 ∈ s then
      match pyFloat (splitSlash s).1, pyFloat (splitSlash s).2 with
      | some num, some den => if 0 < den then num / den else 999
      | some _, none => 999
      | none, _ => 999
    else
      match pyFloat s with
      | some dec => if 1 < dec then dec - 1 else 999
      | none => 999

/-! ## Time bucketing (`RacingDataAggregator._round_time`) -/

/-- Decimal digits, most significant first, by fuelled division (structural
recursion so that the kernel can evaluate it; `fuel = n` always suffices
because the argument shrinks by a factor of 10 per step). -/
def natToDigitsAux : Nat → Nat → List Nat
  | 0, n => [48 + n % 10]
  | fuel + 1, n => if n < 10 then [48 + n] else natToDigitsAux fuel (n / 10) ++ [48 + n % 10]

/-- Decimal digits of `n`, most significant first, as code points (the
zero-padding-free part of `strftime`/`str(int)`). -/
def natToDigits (n : Nat) : List Nat := natToDigitsAux n n

/-- Two-digit zero-padded field of `strftime` (`%H`, `%M`, `%m`, `%d`). -/
def pad2 (n : Nat) : List Nat := if n < 10 then [48, 48 + n] else natToDigits n

/-- The hour alternatives of CPython `_strptime`'s `%H` pattern
`2[0-3]|[0-1]\d|\d`, in the regex engine's backtracking order: each entry is
(parsed hour, rest of input). -/
def hourAlts : List Nat → List (Nat × List Nat)
  | [] => []
  | [a] => if isDig a then [(a - 48, [])] else []
  | a :: c :: r =>
      (if a = 50 ∧ 48 ≤ c ∧ c ≤ 51 then [(20 + (c - 48), r)] else []) ++
      (if (a = 48 ∨ a = 49) ∧ isDig c = true then [(10 * (a - 48) + (c - 48), r)] else []) ++
      (if isDig a then [(a - 48, c :: r)] else [])

/-- The minute alternatives of CPython `_strptime`'s `%M` pattern
`[0-5]\d|\d`, in backtracking order. -/
def minAlts : List Nat → List (Nat × List Nat)
  | [] => []
  | [a] => if isDig a then [(a - 48, [])] else []
  | a :: c :: r =>
      (if 48 ≤ a ∧ a ≤ 53 ∧ isDig c = true then [(10 * (a - 48) + (c - 48), r)] else []) ++
      (if isDig a then [(a - 48, c :: r)] else [])

/-- `datetime.strptime(s, "%H:%M")` as a total function: hour pattern, the
literal `:` (58), minute pattern, end of input; `none` is the source's
`ValueError`.  Backtracking over the alternations is the `findSome?`
traversal. -/
def parseHHMM (l : List Nat) : Option (Nat × Nat) :=
  (hourAlts l).findSome? (fun hr =>
    match hr.2 with
    | 58 :: r2 =>
        (minAlts r2).findSome? (fun mr => if mr.2 = [] then some (hr.1, mr.1) else none)
    | _ => none)

/-- `RacingDataAggregator._round_time` of `src/MeltAndRepour.py` (lines
978–984): parse `"%H:%M"`, floor minutes to the bucket `tol` (default 5),
reformat; on a parse failure (the `except` arm) return the input unchanged. -/
def round_time (tol : Nat) (l : List Nat) : List Nat :=
  match parseHHMM l with
  | some hm => pad2 hm.1 ++ 58 :: pad2 (hm.2 / tol * tol)
  | none => l

/-! ## Course normalization (`RacingDataAggregator._norm_course`) -/

/-- One attempt of the regex `\s*\([^)]*\)` at the current position:
optional whitespace, `(` (40), any non-`)` characters, `)` (41).  Returns
the input remaining after the match, or `none` when the pattern does not
match here. -/
def tryMatch (z : List Nat) : Option (List Nat) :=
  match z.dropWhile isWS with
  | 40 :: r2 =>
      match r2.dropWhile (fun c => c != 41) with
      | 41 :: tail => some tail
      | _ => none
  | _ => none

/-- `re.sub(r"\s*\([^)]*\)", "", z)`: leftmost-first scan, deleting each
match and continuing after it, advancing one character when no match starts
here.  Fuelled with `z.length` (every match consumes at least two
characters) so the recursion is structural and kernel-evaluable. -/
def parenRemoveAux : Nat → List Nat → List Nat
  | 0, l => l
  | fuel + 1, l =>
      match l with
      | [] => []
      | c :: cs =>
          match tryMatch (c :: cs) with
          | some rest => parenRemoveAux fuel rest
          | none => c :: parenRemoveAux fuel cs

/-- The paren-stripping substitution `re.sub(r"\s*\([^)]*\)", "", ·)`. -/
def parenRemove (l : List Nat) : List Nat := parenRemoveAux l.length l

/-- `.replace("-", " ").replace("_", " ")`: hyphen (45) and underscore (95)
each become a space (32). -/
def repl2 (l : List Nat) : List Nat :=
  l.map (fun c => if c = 45 ∨ c = 95 then 32 else c)

/-- `re.sub(r"\s+", " ", z)`: each maximal whitespace run becomes one
space.  The boolean state records whether the previous character was
whitespace (in which case further whitespace is dropped). -/
def collapseGo : Bool → List Nat → List Nat
  | _, [] => []
  | prevWS, c :: cs =>
      if isWS c then
        if prevWS then collapseGo true cs else 32 :: collapseGo true cs
      else c :: collapseGo false cs

/-- Whitespace-run collapsing, starting outside a run. -/
def collapseWS (l : List Nat) : List Nat := collapseGo false l

/-- `RacingDataAggregator._norm_course` of `src/MeltAndRepour.py` (lines
971–976): falsy input gives `""`; otherwise lowercase, strip, drop
`\s*\([^)]*\)` matches, turn `-`/`_` into spaces, collapse whitespace
runs. -/
def norm_course (l : List Nat) : List Nat :=
  if l = [] then []
  else collapseWS (repl2 (parenRemove (pyStrip (pyLower l))))

/-- A `(` (40) with some `)` (41) after it — exactly when the regex
`\s*\([^)]*\)` matches somewhere in the string. -/
def bad : List Nat → Bool
  | [] => false
  | c :: cs => (c == 40 && cs.contains 41) || bad cs

/-- Parenthesis characters only. -/
def isParen (c : Nat) : Bool := c == 40 || c == 41

/-- True when the list is empty or starts with a non-whitespace character. -/
def headNotWS : List Nat → Bool
  | [] => true
  | d :: _ => !isWS d

/-- Every whitespace character is a plain space (32) and is followed by a
non-whitespace character — the invariant of collapsed strings, under which
`collapseGo false` is the identity. -/
def okSp : List Nat → Bool
  | [] => true
  | c :: cs => (!isWS c || (c == 32 && headNotWS cs)) && okSp cs

/-! ## The canonical race record (`RaceData` of `src/MeltAndRepour.py`) -/

/-- The fields of Python's `datetime` that the aggregation code reads
(`strftime("%Y-%m-%d")` and `strftime("%H:%M")`). -/
structure PyDateTime where
  year : Nat
  month : Nat
  day : Nat
  hour : Nat
  minute : Nat
deriving DecidableEq

/-- A runner dict `{"name": ..., "odds_str": ...}` as the source adapters
build it. -/
structure Runner where
  name : List Nat
  odds_str : List Nat
deriving DecidableEq

/-- The `RaceData` dataclass (`src/MeltAndRepour.py` lines 156–176); field
for field, with `Optional[...]` as `Option`, floats as ℚ, and the
`data_sources: Dict[str, str]` as an insertion-ordered association list
(Python dicts preserve insertion order and have unique keys).
`form_guide_url` and `value_score` keep their dataclass defaults `None` and
`0.0` when a construction site omits them. -/
structure RaceData where
  id : List Nat
  course : List Nat
  race_time : List Nat
  utc_datetime : PyDateTime
  local_time : List Nat
  timezone_name : List Nat
  field_size : Nat
  country : List Nat
  discipline : List Nat
  race_number : Option Int
  grade : Option (List Nat)
  distance : Option (List Nat)
  surface : Option (List Nat)
  favorite : Option Runner
  second_favorite : Option Runner
  all_runners : List Runner
  race_url : List Nat
  form_guide_url : Option (List Nat)
  value_score : ℚ
  data_sources : List (List Nat × List Nat)
deriving DecidableEq

/-- Python `a or b` on strings: `""` is falsy. -/
def orStr (a b : List Nat) : List Nat := if a = [] then b else a

/-- Python `a or b` on `Optional[str]`: `None` and `""` are falsy. -/
def orOptStr (a b : Option (List Nat)) : Option (List Nat) :=
  match a with
  | some s => if s = [] then b else a
  | none => b

/-- Python `a or b` on `Optional[int]`: `None` and `0` are falsy. -/
def orOptInt (a b : Option Int) : Option Int :=
  match a with
  | some n => if n = 0 then b else a
  | none => b

/-- Python `a or b` on `Optional[dict]` for the favorite dicts: such a dict
always carries its `name`/`odds_str` keys, so a present value is truthy. -/
def orOptRunner (a b : Option Runner) : Option Runner :=
  match a with
  | some _ => a
  | none => b

/-- `m[k]` / `k in m` on an insertion-ordered dict: first (only) entry with
the key. -/
def alookup {κ ν : Type} [DecidableEq κ] (m : List (κ × ν)) (k : κ) : Option ν :=
  (m.find? (fun e => decide (e.1 = k))).map (·.2)

/-- `{**s, **p}`: `s`'s entries in order with values overridden by `p`,
then `p`'s entries with fresh keys in `p`'s order. -/
def dictMerge (s p : List (List Nat × List Nat)) : List (List Nat × List Nat) :=
  s.map (fun e =>
    match alookup p e.1 with
    | some v => (e.1, v)
    | none => e) ++
  p.filter (fun e => (alookup s e.1).isNone)

/-- `d[k] = v` on an insertion-ordered dict: update in place when the key
exists, else append. -/
def dictSet (m : List (List Nat × List Nat)) (k v : List Nat) : List (List Nat × List Nat) :=
  if (alookup m k).isSome then m.map (fun e => if e.1 = k then (k, v) else e)
  else m ++ [(k, v)]

/-- `RacingDataAggregator._merge` of `src/MeltAndRepour.py` (lines
986–1010): primary is the side with at least as many `data_sources` (ties
favour the left/accumulated record); strings and optionals merge by Python
`or`, `field_size` by `max`, the longer `all_runners` list wins wholesale,
`data_sources` is `{**secondary, **primary}`.  `value_score` is not passed,
so it takes the dataclass default `0.0`. -/
def mergeRace (a b : RaceData) : RaceData :=
  let primary := if b.data_sources.length ≤ a.data_sources.length then a else b
  let secondary := if b.data_sources.length ≤ a.data_sources.length then b else a
  { id := primary.id
    course := orStr primary.course secondary.course
    race_time := orStr primary.race_time secondary.race_time
    utc_datetime := primary.utc_datetime
    local_time := orStr primary.local_time secondary.local_time
    timezone_name := orStr primary.timezone_name secondary.timezone_name
    field_size := max primary.field_size secondary.field_size
    country := orStr primary.country secondary.country
    discipline := orStr primary.discipline secondary.discipline
    race_number := orOptInt primary.race_number secondary.race_number
    grade := orOptStr primary.grade secondary.grade
    distance := orOptStr primary.distance secondary.distance
    surface := orOptStr primary.surface secondary.surface
    favorite := orOptRunner primary.favorite secondary.favorite
    second_favorite := orOptRunner primary.second_favorite secondary.second_favorite
    all_runners := if secondary.all_runners.length ≤ primary.all_runners.length
      then primary.all_runners else secondary.all_runners
    race_url := orStr primary.race_url secondary.race_url
    form_guide_url := orOptStr primary.form_guide_url secondary.form_guide_url
    value_score := 0
    data_sources := dictMerge secondary.data_sources primary.data_sources }

/-- `str(i)` for a Python int. -/
def intToStr (i : Int) : List Nat :=
  if i < 0 then 45 :: natToDigits i.natAbs else natToDigits i.natAbs

/-- `strftime("%Y-%m-%d")` (glibc `%Y` prints the year unpadded). -/
def fmtDate (d : PyDateTime) : List Nat :=
  natToDigits d.year ++ 45 :: pad2 d.month ++ 45 :: pad2 d.day

/-- `strftime("%H:%M")`. -/
def fmtHM (d : PyDateTime) : List Nat := pad2 d.hour ++ 58 :: pad2 d.minute

/-- `str(race.race_number or "")`. -/
def strOfRaceNumber (rn : Option Int) : List Nat :=
  match rn with
  | some n => if n = 0 then [] else intToStr n
  | none => []

/-- `RacingDataAggregator._key` (lines 964–969): normalized course, UTC
date, bucketed time and race number joined with `|` (124). -/
def race_key (r : RaceData) : List Nat :=
  norm_course r.course ++ 124 :: fmtDate r.utc_datetime ++
    124 :: round_time 5 (fmtHM r.utc_datetime) ++ 124 :: strOfRaceNumber r.race_number

/-- One step of the dedup fold (`_dedupe_merge`'s loop body): insert the
record under its key, or merge it into the record already there. -/
def dStep (m : List (List Nat × RaceData)) (r : RaceData) : List (List Nat × RaceData) :=
  if (alookup m (race_key r)).isSome then
    m.map (fun e => if e.1 = race_key r then (e.1, mergeRace e.2 r) else e)
  else m ++ [(race_key r, r)]

/-- `RacingDataAggregator._dedupe_merge` (lines 1012–1020): fold the
records into an insertion-ordered dict keyed by the dedup key, then list
the values. -/
def dedupe_merge (rs : List RaceData) : List RaceData :=
  (rs.foldl dStep []).map (·.2)

/-- Truthiness of the `Optional[str]` field `form_guide_url`. -/
def truthyOS : Option (List Nat) → Bool
  | some s => !s.isEmpty
  | none => false

/-- The body of `RacingDataAggregator._enrich_rs_links`'s per-race loop
(lines 1043–1048): look the race up in the directory under
`(normalized course, local date)` and set `form_guide_url` (plus the
provenance tag `data_sources["form"] = "R&S"`) only when the key is present
and `form_guide_url` is falsy.  The local-date computation
`r.utc_datetime.astimezone(ZoneInfo(r.timezone_name)).strftime("%Y-%m-%d")`
needs the tz database, so it is abstracted as the function parameter `dfn`;
every theorem below holds for an arbitrary `dfn`. -/
def enrich_race (dfn : RaceData → List Nat)
    (lookup : List ((List Nat × List Nat) × List Nat)) (r : RaceData) : RaceData :=
  match alookup lookup (norm_course r.course, dfn r) with
  | some link =>
      if truthyOS r.form_guide_url then r
      else { r with form_guide_url := some link,
                    data_sources := dictSet r.data_sources (pyStr "form") (pyStr "R&S") }
  | none => r

/-- The whole `_enrich_rs_links` loop over the race list. -/
def enrich_all (dfn : RaceData → List Nat)
    (lookup : List ((List Nat × List Nat) × List Nat)) (rs : List RaceData) : List RaceData :=
  rs.map (enrich_race dfn lookup)

/-- A concrete race record for witnesses, shaped like the records the
At The Races adapter produces. -/
def sampleRace : RaceData :=
  { id := pyStr "8f2a"
    course := pyStr "Ascot"
    race_time := pyStr "14:05"
    utc_datetime := ⟨2024, 5, 1, 13, 5⟩
    local_time := pyStr "14:05"
    timezone_name := pyStr "Europe/London"
    field_size := 5
    country := pyStr "GB"
    discipline := pyStr "thoroughbred"
    race_number := none
    grade := none
    distance := none
    surface := none
    favorite := some ⟨pyStr "Alpha", pyStr "EVS"⟩
    second_favorite := some ⟨pyStr "Beta", pyStr "5/2"⟩
    all_runners := [⟨pyStr "Alpha", pyStr "EVS"⟩, ⟨pyStr "Beta", pyStr "5/2"⟩]
    race_url := pyStr "https://example/racecard"
    form_guide_url := none
    value_score := 0
    data_sources := [(pyStr "course", pyStr "ATR")] }

/-- The same race seen by a second, richer source: same dedup key, larger
field. -/
def sampleRaceB : RaceData :=
  { sampleRace with
    id := pyStr "9c1d"
    course := pyStr "ascot"
    race_time := pyStr "14:07"
    utc_datetime := ⟨2024, 5, 1, 13, 7⟩
    local_time := pyStr "14:07"
    field_size := 6
    data_sources := [(pyStr "course", pyStr "SkySports"), (pyStr "odds", pyStr "SkySports")] }

/-- An empty race record: the unreachable default of `mergeBucket`. -/
def dummyRace : RaceData :=
  { id := [], course := [], race_time := [], utc_datetime := ⟨0, 0, 0, 0, 0⟩,
    local_time := [], timezone_name := [], field_size := 0, country := [],
    discipline := [], race_number := none, grade := none, distance := none,
    surface := none, favorite := none, second_favorite := none, all_runners := [],
    race_url := [], form_guide_url := none, value_score := 0, data_sources := [] }

/-- One step of first-occurrence key collection. -/
def stepOcc (acc : List (List Nat)) (k : List Nat) : List (List Nat) :=
  if k ∈ acc then acc else acc ++ [k]

/-- The distinct keys of a list in first-occurrence order — the key order of
the dict that `_dedupe_merge` builds. -/
def firstOcc (ks : List (List Nat)) : List (List Nat) := ks.foldl stepOcc []

/-- The left fold of `_merge` over the records with dedup key `k`, in
arrival order — what `_dedupe_merge` accumulates under `k`. -/
def mergeBucket (k : List Nat) (rs : List RaceData) : RaceData :=
  match rs.filter (fun r => decide (race_key r = k)) with
  | [] => dummyRace
  | x :: xs => xs.foldl mergeRace x

/-- The dict `_dedupe_merge` has built after processing `ps`: one entry per
distinct key in first-occurrence order, holding the fold of that key's
bucket. -/
def shapeDict (ps : List RaceData) : List (List Nat × RaceData) :=
  (firstOcc (ps.map race_key)).map (fun k => (k, mergeBucket k ps))

/-! ## Favorite selection (`AtTheRacesSource._parse_from_caption`,
`GBGreyhoundSource._parse_race`) -/

/-- The sort key `convert_odds_to_fractional(x.get("odds_str", ""))`. -/
def favKey (x : Runner) : ℚ := convert_odds_to_fractional x.odds_str

/-- The comparison under which Python's stable `sorted` orders runners. -/
def favRel (x y : Runner) : Prop := favKey x ≤ favKey y

instance : DecidableRel favRel := fun x y => by unfold favRel; infer_instance

/-- `sorted(runners, key=lambda x: convert_odds_to_fractional(...))`:
Python's `sorted` is stable, and insertion sort with `favRel` (which keeps
an earlier element before a later one with an equal key) is the stable sort
by this key. -/
def favSorted (rs : List Runner) : List Runner := List.insertionSort favRel rs

/-- `fav_sorted[0] if fav_sorted else None`. -/
def favorite (rs : List Runner) : Option Runner := (favSorted rs).head?

/-- `fav_sorted[1] if len(fav_sorted) > 1 else None`. -/
def secondFavorite (rs : List Runner) : Option Runner := (favSorted rs).drop 1 |>.head?

/-- The spec's canonical runner list with odds `["5/2", "EVS", "SP", "10/1"]`. -/
def exRunners : List Runner :=
  [⟨pyStr "A", pyStr "5/2"⟩, ⟨pyStr "B", pyStr "EVS"⟩,
   ⟨pyStr "C", pyStr "SP"⟩, ⟨pyStr "D", pyStr "10/1"⟩]

/-! ## `find_rs_link` and its helpers (`src/ai_studio_code.py`) -/

/-- `str.replace(pat, "")` for a non-empty pattern: delete non-overlapping
occurrences left to right.  Fuelled with the string length (each deletion
consumes at least one character) to keep the recursion structural. -/
def rAllAux : Nat → List Nat → List Nat → List Nat
  | 0, _, l => l
  | fuel + 1, pat, l =>
      match l with
      | [] => []
      | c :: cs =>
          if pat ≠ [] ∧ pat.isPrefixOf (c :: cs) then
            rAllAux fuel pat (List.drop pat.length (c :: cs))
          else c :: rAllAux fuel pat cs

/-- `str.replace(pat, "")`. -/
def rAll (pat l : List Nat) : List Nat := rAllAux l.length pat l

/-- `normalize_track_name` of `src/ai_studio_code.py` (line 241): lowercase,
strip, delete the noise substrings `"(july)"`, `"(aw)"`, `"acton"`,
`"park"`, strip again. -/
def normalize_track_name (l : List Nat) : List Nat :=
  pyStrip (rAll (pyStr "park") (rAll (pyStr "acton") (rAll (pyStr "(aw)")
    (rAll (pyStr "(july)") (pyStrip (pyLower l))))))

/-- The day alternatives of CPython `_strptime`'s `%d` pattern
`3[01]|[12]\d|0[1-9]|[1-9]`, in backtracking order. -/
def dayAlts : List Nat → List (Nat × List Nat)
  | [] => []
  | [a] => if 49 ≤ a ∧ a ≤ 57 then [(a - 48, [])] else []
  | a :: c :: r =>
      (if a = 51 ∧ (c = 48 ∨ c = 49) then [(30 + (c - 48), r)] else []) ++
      (if (a = 49 ∨ a = 50) ∧ isDig c = true then [(10 * (a - 48) + (c - 48), r)] else []) ++
      (if a = 48 ∧ 49 ≤ c ∧ c ≤ 57 then [(c - 48, r)] else []) ++
      (if 49 ≤ a ∧ a ≤ 57 then [(a - 48, c :: r)] else [])

/-- The month alternatives of `%m`: `1[0-2]|0[1-9]|[1-9]`. -/
def monAlts : List Nat → List (Nat × List Nat)
  | [] => []
  | [a] => if 49 ≤ a ∧ a ≤ 57 then [(a - 48, [])] else []
  | a :: c :: r =>
      (if a = 49 ∧ 48 ≤ c ∧ c ≤ 50 then [(10 + (c - 48), r)] else []) ++
      (if a = 48 ∧ 49 ≤ c ∧ c ≤ 57 then [(c - 48, r)] else []) ++
      (if 49 ≤ a ∧ a ≤ 57 then [(a - 48, c :: r)] else [])

/-- The regex part of `datetime.strptime(s, "%d-%m-%Y")`: day, `-`, month,
`-`, four digits, end of input. -/
def parseDMYRegex (l : List Nat) : Option (Nat × Nat × Nat) :=
  (dayAlts l).findSome? fun dr =>
    match dr.2 with
    | 45 :: r2 =>
        (monAlts r2).findSome? fun mr =>
          match mr.2 with
          | 45 :: [y1, y2, y3, y4] =>
              if isDig y1 ∧ isDig y2 ∧ isDig y3 ∧ isDig y4 then
                some (dr.1, mr.1, 1000 * (y1 - 48) + 100 * (y2 - 48) + 10 * (y3 - 48) + (y4 - 48))
              else none
          | _ => none
    | _ => none

/-- The Gregorian leap rule used by `datetime`. -/
def isLeap (y : Nat) : Bool := (y % 4 == 0 && y % 100 != 0) || y % 400 == 0

def daysInMonth (m y : Nat) : Nat :=
  if m = 2 then (if isLeap y then 29 else 28)
  else if m = 4 ∨ m = 6 ∨ m = 9 ∨ m = 11 then 30 else 31

/-- `datetime.strptime(s, "%d-%m-%Y")` including the calendar validation
that the `datetime` constructor performs after the regex match (`ValueError`
on an impossible date or year 0). -/
def parseDMY (l : List Nat) : Option (Nat × Nat × Nat) :=
  match parseDMYRegex l with
  | some (d, m, y) => if 1 ≤ y ∧ d ≤ daysInMonth m y then some (d, m, y) else none
  | none => none

/-- `find_rs_link` of `src/ai_studio_code.py` (lines 538–545): reformat the
`DD-MM-YYYY` date as `YYYY-MM-DD` (`None` on a parse failure), normalize the
track name, try the exact directory key, then scan the directory in
insertion order for the first entry with the same date whose normalized
course contains or is contained in the race's (`a in b or b in a`,
substring containment = `List.IsInfix`). -/
def find_rs_link (track date_iso : List Nat)
    (lookup : List ((List Nat × List Nat) × List Nat)) : Option (List Nat) :=
  match parseDMY date_iso with
  | none => none
  | some (d, m, y) =>
      let ymd := natToDigits y ++ 45 :: pad2 m ++ 45 :: pad2 d
      let nt := normalize_track_name track
      match alookup lookup (nt, ymd) with
      | some link => some link
      | none =>
          (lookup.find? (fun e =>
            decide (e.1.2 = ymd) && (decide (List.IsInfix nt e.1.1) || decide (List.IsInfix e.1.1 nt)))).map (·.2)

/-! ## Support lemmas: string primitives on restricted alphabets -/

example : normalize_track_name (pyStr "Ascot") = pyStr "ascot" := by decide
example : normalize_track_name (pyStr "Newmarket (July) ") = pyStr "newmarket" := by decide
example : normalize_track_name (pyStr "Kempton Park") = pyStr "kempton" := by decide
example : parseDMY (pyStr "01-05-2024") = some (1, 5, 2024) := by decide
example : parseDMY (pyStr "31-02-2024") = none := by decide
example : parseDMY (pyStr "29-02-2024") = some (29, 2, 2024) := by decide
example : parseDMY (pyStr "29-02-2023") = none := by decide
example : parseDMY (pyStr "2024-05-01") = none := by decide
example :
    find_rs_link (pyStr "Ascot") (pyStr "01-05-2024")
      [((pyStr "ascot racecourse", pyStr "2024-05-01"), pyStr "https://rs.example/a.pdf")] =
      some (pyStr "https://rs.example/a.pdf") := by decide

example : norm_course (pyStr "Ffos-Las") = pyStr "ffos las" := by decide
example : norm_course (pyStr "Ascot (AW)") = pyStr "ascot" := by decide
example : norm_course (pyStr "  Newmarket (July)  ") = pyStr "newmarket" := by decide
example : norm_course (pyStr "a_b  c") = pyStr "a b c" := by decide
example : norm_course (pyStr "-a") = pyStr " a" := by decide
example : norm_course (pyStr " a") = pyStr "a" := by decide
example : norm_course (pyStr "(x) b") = pyStr " b" := by decide
example : norm_course (pyStr "") = pyStr "" := by decide

example : parseHHMM (pyStr "14:07") = some (14, 7) := by decide
example : parseHHMM (pyStr "9:5") = some (9, 5) := by decide
example : parseHHMM (pyStr "23:59") = some (23, 59) := by decide
example : parseHHMM (pyStr "25:00") = none := by decide
example : parseHHMM (pyStr "24:00") = none := by decide
example : parseHHMM (pyStr "14:070") = none := by decide
example : parseHHMM (pyStr "111:11") = none := by decide
example : parseHHMM (pyStr " 14:07") = none := by decide
example : round_time 5 (pyStr "14:07") = pyStr "14:05" := by decide
example : round_time 5 (pyStr "14:10") = pyStr "14:10" := by decide
example : round_time 5 (pyStr "9:59") = pyStr "09:55" := by decide
example : round_time 5 (pyStr "garbage") = pyStr "garbage" := by decide

example : convert_odds_to_fractional (pyStr "5/2") = 5 / 2 := by decide
example : convert_odds_to_fractional (pyStr "EVS") = 1 := by decide
example : convert_odds_to_fractional (pyStr "evens") = 1 := by decide
example : convert_odds_to_fractional (pyStr "2/1") = 2 := by decide
example : convert_odds_to_fractional (pyStr "SP") = 999 := by decide
example : convert_odds_to_fractional (pyStr "") = 999 := by decide
example : convert_odds_to_fractional (pyStr "  ") = 999 := by decide
example : convert_odds_to_fractional (pyStr "3.5") = 5 / 2 := by decide
example : convert_odds_to_fractional (pyStr "5-2") = 5 / 2 := by decide
example : convert_odds_to_fractional (pyStr "7/0") = 999 := by decide
example : convert_odds_to_fractional (pyStr "abc") = 999 := by decide
example : convert_odds_to_fractional (pyStr " 10/1 ") = 10 := by decide
example : convert_odds_to_fractional (pyStr "0.5") = 999 := by decide
example : convert_odds_to_fractional (pyStr "2E1") = 19 := by decide

theorem dropWhile_all_false {p : Nat → Bool} {l : List Nat}
    (h : ∀ c ∈ l, p c = false) : l.dropWhile p = l := by
  cases l with
  | nil => rfl
  | cons a t => simp [List.dropWhile_cons, h a (by simp)]

theorem takeWhile_all_true {p : Nat → Bool} {l : List Nat}
    (h : ∀ c ∈ l, p c = true) : l.takeWhile p = l := by
  induction l with
  | nil => rfl
  | cons a t ih =>
      simp only [List.takeWhile_cons, h a (by simp)]
      simp [ih (fun c hc => h c (by simp [hc]))]

theorem dropWhile_all_true {p : Nat → Bool} {l : List Nat}
    (h : ∀ c ∈ l, p c = true) : l.dropWhile p = [] := by
  induction l with
  | nil => rfl
  | cons a t ih =>
      simp only [List.dropWhile_cons, h a (by simp)]
      exact ih (fun c hc => h c (by simp [hc]))

theorem takeWhile_append_sep {p : Nat → Bool} {a b : List Nat} {x : Nat}
    (h : ∀ c ∈ a, p c = true) (hx : p x = false) :
    (a ++ x :: b).takeWhile p = a := by
  induction a with
  | nil => simp [List.takeWhile_cons, hx]
  | cons c t ih =>
      simp only [List.cons_append, List.takeWhile_cons, h c (by simp)]
      simp [ih (fun d hd => h d (by simp [hd]))]

theorem dropWhile_append_sep {p : Nat → Bool} {a b : List Nat} {x : Nat}
    (h : ∀ c ∈ a, p c = true) (hx : p x = false) :
    (a ++ x :: b).dropWhile p = x :: b := by
  induction a with
  | nil => simp [List.dropWhile_cons, hx]
  | cons c t ih =>
      simp only [List.cons_append, List.dropWhile_cons, h c (by simp)]
      exact ih (fun d hd => h d (by simp [hd]))

theorem pyStrip_of_noWS {l : List Nat} (h : ∀ c ∈ l, isWS c = false) :
    pyStrip l = l := by
  unfold pyStrip
  rw [dropWhile_all_false (fun c hc => h c (List.mem_reverse.mp hc)), List.reverse_reverse,
    dropWhile_all_false h]

theorem pyUpper_of_noLower {l : List Nat} (h : ∀ c ∈ l, ¬(97 ≤ c ∧ c ≤ 122)) :
    pyUpper l = l := by
  induction l with
  | nil => rfl
  | cons a t ih =>
      simp only [pyUpper, List.map_cons]
      rw [if_neg (h a (by simp))]
      have := ih (fun c hc => h c (by simp [hc]))
      simp only [pyUpper] at this
      rw [this]

theorem replChar_of_notMem {a b : Nat} {l : List Nat} (h : a ∉ l) :
    replChar a b l = l := by
  induction l with
  | nil => rfl
  | cons c t ih =>
      simp only [replChar, List.map_cons]
      rw [if_neg (show ¬(c = a) from fun e => h (by simp [← e]))]
      have := ih (fun e => h (List.mem_cons_of_mem c e))
      simp only [replChar] at this
      rw [this]

/-- Digit code points are not whitespace, not lowercase letters, and distinct
from the special characters `-` (45), `.` (46), `/` (47). -/
theorem isDig_facts {c : Nat} (h : isDig c = true) :
    isWS c = false ∧ ¬(97 ≤ c ∧ c ≤ 122) ∧ c ≠ 45 ∧ c ≠ 46 ∧ c ≠ 47 ∧ c ≠ 43 := by
  simp only [isDig, Bool.and_eq_true, decide_eq_true_eq] at h
  refine ⟨?_, ?_, ?_, ?_, ?_, ?_⟩ <;> simp [isWS] <;> omega

theorem digVal_nil : digVal [] = 0 := rfl

theorem mant_nil_fp (ip : List Nat) : mant ip [] = (digVal ip : ℚ) := by
  simp [mant, digVal_nil]

/-- `float` on a pure digit string returns its decimal value. -/
theorem pyFloat_digits {d : List Nat} (hd : ∀ c ∈ d, isDig c = true)
    (hne : d ≠ []) : pyFloat d = some (digVal d) := by
  have hstrip : pyStrip d = d :=
    pyStrip_of_noWS (fun c hc => (isDig_facts (hd c hc)).1)
  have hbody : pyFloatBody d = some (digVal d) := by
    unfold pyFloatBody
    rw [takeWhile_all_true hd, dropWhile_all_true hd]
    simp [hne, pyExp, mant_nil_fp]
  unfold pyFloat
  rw [hstrip]
  split
  · rename_i r
    have := hd 43 (by simp)
    simp [isDig] at this
  · rename_i r
    have := hd 45 (by simp)
    simp [isDig] at this
  · exact hbody

/-- `float` on `digits.digits` returns integer part plus scaled fractional
part. -/
theorem pyFloat_point {a b : List Nat} (ha : ∀ c ∈ a, isDig c = true)
    (hb : ∀ c ∈ b, isDig c = true) (hne : a ≠ [] ∨ b ≠ []) :
    pyFloat (a ++ 46 :: b) = some (mant a b) := by
  have hmem : ∀ c ∈ a ++ 46 :: b, isDig c = true ∨ c = 46 := by
    intro c hc
    rcases List.mem_append.mp hc with h | h
    · exact Or.inl (ha c h)
    · rcases List.mem_cons.mp h with h | h
      · exact Or.inr h
      · exact Or.inl (hb c h)
  have hstrip : pyStrip (a ++ 46 :: b) = a ++ 46 :: b := by
    refine pyStrip_of_noWS (fun c hc => ?_)
    rcases hmem c hc with h | h
    · exact (isDig_facts h).1
    · subst h; rfl
  have hd46 : isDig 46 = false := by decide
  have hbody : pyFloatBody (a ++ 46 :: b) = some (mant a b) := by
    unfold pyFloatBody
    rw [takeWhile_append_sep ha hd46, dropWhile_append_sep ha hd46]
    simp only [takeWhile_all_true hb, dropWhile_all_true hb]
    have : ¬(a = [] ∧ b = []) := by
      rcases hne with h | h
      · exact fun hab => h hab.1
      · exact fun hab => h hab.2
    simp [this, pyExp]
  unfold pyFloat
  rw [hstrip]
  split
  · rename_i r heq
    cases a with
    | nil => simp at heq
    | cons c t =>
        have hc : c = 43 := by simpa using congrArg List.head? heq
        have := ha c (by simp)
        rw [hc] at this
        simp [isDig] at this
  · rename_i r heq
    cases a with
    | nil => simp at heq
    | cons c t =>
        have hc : c = 45 := by simpa using congrArg List.head? heq
        have := ha c (by simp)
        rw [hc] at this
        simp [isDig] at this
  · exact hbody

theorem mem_ne {x : Nat} {l m : List Nat} (hx : x ∈ l) (hm : x ∉ m) : l ≠ m :=
  fun e => hm (e ▸ hx)

theorem ne_of_all_dig {l m : List Nat} (x : Nat) (hall : ∀ c ∈ l, isDig c = true)
    (hx : x ∈ m) (hpx : isDig x = false) : l ≠ m := by
  intro e
  subst e
  rw [hall x hx] at hpx
  exact Bool.noConfusion hpx

/-- Identity of the strip/upper/hyphen-replace preprocessing on strings made
of digits plus one separator character `sep` that is not whitespace, not a
lowercase letter, and not `-`. -/
theorem preprocess_digit_sep (sep : Nat) {a b : List Nat}
    (ha : ∀ c ∈ a, isDig c = true) (hb : ∀ c ∈ b, isDig c = true)
    (hws : isWS sep = false) (hlo : ¬(97 ≤ sep ∧ sep ≤ 122)) (h45 : sep ≠ 45) :
    pyStrip (a ++ sep :: b) = a ++ sep :: b ∧
      pyUpper (a ++ sep :: b) = a ++ sep :: b ∧
      replChar 45 47 (a ++ sep :: b) = a ++ sep :: b := by
  have hmem : ∀ c ∈ a ++ sep :: b, isDig c = true ∨ c = sep := by
    intro c hc
    rcases List.mem_append.mp hc with h | h
    · exact Or.inl (ha c h)
    · rcases List.mem_cons.mp h with h | h
      · exact Or.inr h
      · exact Or.inl (hb c h)
  refine ⟨pyStrip_of_noWS ?_, pyUpper_of_noLower ?_, replChar_of_notMem ?_⟩
  · intro c hc
    rcases hmem c hc with h | h
    · exact (isDig_facts h).1
    · exact h ▸ hws
  · intro c hc
    rcases hmem c hc with h | h
    · exact (isDig_facts h).2.1
    · exact h ▸ hlo
  · intro hc
    rcases hmem 45 hc with h | h
    · simp [isDig] at h
    · exact h45 h.symm

/-- `convert_odds_to_fractional` on a digit-slash-digit string: the two
sides are `float`-parsed and divided, with 999 for a non-positive
denominator. -/
theorem convert_frac_general {a b : List Nat}
    (ha : ∀ c ∈ a, isDig c = true) (hb : ∀ c ∈ b, isDig c = true)
    (hA : a ≠ []) (hB : b ≠ []) :
    convert_odds_to_fractional (a ++ 47 :: b) =
      if 0 < digVal b then (digVal a : ℚ) / (digVal b : ℚ) else 999 := by
  obtain ⟨hstrip, hup, hrep⟩ :=
    preprocess_digit_sep 47 ha hb (by decide) (by decide) (by decide)
  have hne : a ++ 47 :: b ≠ [] := by simp
  have h47 : (47 : Nat) ∈ a ++ 47 :: b := by simp
  have hnSP : a ++ 47 :: b ≠ pyStr "SP" := mem_ne h47 (by decide)
  have hnNR : a ++ 47 :: b ≠ pyStr "NR" := mem_ne h47 (by decide)
  have hnEVS : a ++ 47 :: b ≠ pyStr "EVS" := mem_ne h47 (by decide)
  have hnEVENS : a ++ 47 :: b ≠ pyStr "EVENS" := mem_ne h47 (by decide)
  have hsplit1 : (splitSlash (a ++ 47 :: b)).1 = a := by
    unfold splitSlash
    exact takeWhile_append_sep
      (fun c hc => by simp [(isDig_facts (ha c hc)).2.2.2.2.1]) (by simp)
  have hsplit2 : (splitSlash (a ++ 47 :: b)).2 = b := by
    unfold splitSlash
    rw [dropWhile_append_sep
      (fun c hc => by simp [(isDig_facts (ha c hc)).2.2.2.2.1]) (by simp)]
    rfl
  unfold convert_odds_to_fractional
  rw [hstrip, hup, hrep]
  simp only [if_neg hne,
    if_neg (show ¬(a ++ 47 :: b = pyStr "SP" ∨ a ++ 47 :: b = pyStr "NR") by tauto),
    if_neg (show ¬(a ++ 47 :: b = pyStr "EVS" ∨ a ++ 47 :: b = pyStr "EVENS") by tauto),
    if_pos h47, hsplit1, hsplit2, pyFloat_digits ha hA, pyFloat_digits hb hB]
  simp [Nat.cast_pos]

/-- `convert_odds_to_fractional` on a bare digit string: decimal-to-
fractional conversion `d - 1` when `d > 1`, else 999. -/
theorem convert_bare_int {a : List Nat} (ha : ∀ c ∈ a, isDig c = true)
    (hA : a ≠ []) :
    convert_odds_to_fractional a =
      if 1 < digVal a then (digVal a : ℚ) - 1 else 999 := by
  have hstrip : pyStrip a = a := pyStrip_of_noWS (fun c hc => (isDig_facts (ha c hc)).1)
  have hup : pyUpper a = a := pyUpper_of_noLower (fun c hc => (isDig_facts (ha c hc)).2.1)
  have hrep : replChar 45 47 a = a :=
    replChar_of_notMem (fun hc => by simpa [isDig] using ha 45 hc)
  have hnSP : a ≠ pyStr "SP" := ne_of_all_dig 83 ha (by decide) (by decide)
  have hnNR : a ≠ pyStr "NR" := ne_of_all_dig 78 ha (by decide) (by decide)
  have hnEVS : a ≠ pyStr "EVS" := ne_of_all_dig 69 ha (by decide) (by decide)
  have hnEVENS : a ≠ pyStr "EVENS" := ne_of_all_dig 69 ha (by decide) (by decide)
  have h47 : (47 : Nat) ∉ a := fun hc => by simpa [isDig] using ha 47 hc
  unfold convert_odds_to_fractional
  rw [hstrip, hup, hrep]
  simp only [if_neg hA,
    if_neg (show ¬(a = pyStr "SP" ∨ a = pyStr "NR") by tauto),
    if_neg (show ¬(a = pyStr "EVS" ∨ a = pyStr "EVENS") by tauto),
    if_neg h47, pyFloat_digits ha hA]
  simp [Nat.one_lt_cast]

/-- `convert_odds_to_fractional` on a digit-point-digit string. -/
theorem convert_point {a b : List Nat}
    (ha : ∀ c ∈ a, isDig c = true) (hb : ∀ c ∈ b, isDig c = true)
    (hA : a ≠ []) :
    convert_odds_to_fractional (a ++ 46 :: b) =
      if 1 < mant a b then mant a b - 1 else 999 := by
  obtain ⟨hstrip, hup, hrep⟩ :=
    preprocess_digit_sep 46 ha hb (by decide) (by decide) (by decide)
  have hne : a ++ 46 :: b ≠ [] := by simp
  have h46 : (46 : Nat) ∈ a ++ 46 :: b := by simp
  have hnSP : a ++ 46 :: b ≠ pyStr "SP" := mem_ne h46 (by decide)
  have hnNR : a ++ 46 :: b ≠ pyStr "NR" := mem_ne h46 (by decide)
  have hnEVS : a ++ 46 :: b ≠ pyStr "EVS" := mem_ne h46 (by decide)
  have hnEVENS : a ++ 46 :: b ≠ pyStr "EVENS" := mem_ne h46 (by decide)
  have h47 : (47 : Nat) ∉ a ++ 46 :: b := by
    intro hc
    rcases List.mem_append.mp hc with h | h
    · simpa [isDig] using ha 47 h
    · rcases List.mem_cons.mp h with h | h
      · exact absurd h.symm (by decide)
      · simpa [isDig] using hb 47 h
  unfold convert_odds_to_fractional
  rw [hstrip, hup, hrep]
  simp only [if_neg hne,
    if_neg (show ¬(a ++ 46 :: b = pyStr "SP" ∨ a ++ 46 :: b = pyStr "NR") by tauto),
    if_neg (show ¬(a ++ 46 :: b = pyStr "EVS" ∨ a ++ 46 :: b = pyStr "EVENS") by tauto),
    if_neg h47, pyFloat_point ha hb (Or.inl hA)]

/-- `convert_odds_to_fractional` returns 1 on anything whose stripped,
uppercased form is `EVS` or `EVENS`. -/
theorem convert_evs {l : List Nat}
    (h : pyUpper (pyStrip l) = pyStr "EVS" ∨ pyUpper (pyStrip l) = pyStr "EVENS") :
    convert_odds_to_fractional l = 1 := by
  have hne : ¬(pyStrip l = []) := by
    intro e
    rcases h with h | h <;> rw [e] at h <;> simp [pyUpper, pyStr] at h
  unfold convert_odds_to_fractional
  rw [if_neg hne]
  rcases h with h | h <;> rw [h] <;> decide

/-- `convert_odds_to_fractional` returns the 999 sentinel on anything whose
stripped, uppercased form is `SP` or `NR`. -/
theorem convert_spnr {l : List Nat}
    (h : pyUpper (pyStrip l) = pyStr "SP" ∨ pyUpper (pyStrip l) = pyStr "NR") :
    convert_odds_to_fractional l = 999 := by
  have hne : ¬(pyStrip l = []) := by
    intro e
    rcases h with h | h <;> rw [e] at h <;> simp [pyUpper, pyStr] at h
  unfold convert_odds_to_fractional
  rw [if_neg hne]
  rcases h with h | h <;> rw [h] <;> decide

/-- `convert_odds_to_fractional` returns the 999 sentinel on empty or
all-whitespace input. -/
theorem convert_empty {l : List Nat} (h : pyStrip l = []) :
    convert_odds_to_fractional l = 999 := by
  unfold convert_odds_to_fractional
  rw [if_pos h]

/-- `convert_odds_to_fractional` returns the 999 sentinel on non-empty input
that is none of the keywords, contains no `/` after preprocessing, and does
not `float`-parse. -/
theorem convert_unparsable {l : List Nat} (hne : pyStrip l ≠ [])
    (hSP : replChar 45 47 (pyUpper (pyStrip l)) ≠ pyStr "SP")
    (hNR : replChar 45 47 (pyUpper (pyStrip l)) ≠ pyStr "NR")
    (hEVS : replChar 45 47 (pyUpper (pyStrip l)) ≠ pyStr "EVS")
    (hEVENS : replChar 45 47 (pyUpper (pyStrip l)) ≠ pyStr "EVENS")
    (h47 : 47 ∉ replChar 45 47 (pyUpper (pyStrip l)))
    (hfl : pyFloat (replChar 45 47 (pyUpper (pyStrip l))) = none) :
    convert_odds_to_fractional l = 999 := by
  unfold convert_odds_to_fractional
  rw [if_neg hne]
  simp only [if_neg (show ¬(replChar 45 47 (pyUpper (pyStrip l)) = pyStr "SP" ∨
      replChar 45 47 (pyUpper (pyStrip l)) = pyStr "NR") by tauto),
    if_neg (show ¬(replChar 45 47 (pyUpper (pyStrip l)) = pyStr "EVS" ∨
      replChar 45 47 (pyUpper (pyStrip l)) = pyStr "EVENS") by tauto),
    if_neg h47, hfl]

/-- Like `convert_frac_general` but with the fraction written with a hyphen:
the preprocessing turns `-` (45) into `/` (47) before splitting. -/
theorem convert_hyphen_general {a b : List Nat}
    (ha : ∀ c ∈ a, isDig c = true) (hb : ∀ c ∈ b, isDig c = true)
    (hA : a ≠ []) (hB : b ≠ []) :
    convert_odds_to_fractional (a ++ 45 :: b) =
      if 0 < digVal b then (digVal a : ℚ) / (digVal b : ℚ) else 999 := by
  have hmem : ∀ c ∈ a ++ 45 :: b, isDig c = true ∨ c = 45 := by
    intro c hc
    rcases List.mem_append.mp hc with h | h
    · exact Or.inl (ha c h)
    · rcases List.mem_cons.mp h with h | h
      · exact Or.inr h
      · exact Or.inl (hb c h)
  have hstrip : pyStrip (a ++ 45 :: b) = a ++ 45 :: b := by
    refine pyStrip_of_noWS (fun c hc => ?_)
    rcases hmem c hc with h | h
    · exact (isDig_facts h).1
    · subst h; rfl
  have hup : pyUpper (a ++ 45 :: b) = a ++ 45 :: b := by
    refine pyUpper_of_noLower (fun c hc => ?_)
    rcases hmem c hc with h | h
    · exact (isDig_facts h).2.1
    · subst h; omega
  have hrep : replChar 45 47 (a ++ 45 :: b) = a ++ 47 :: b := by
    unfold replChar
    rw [List.map_append, List.map_cons, if_pos rfl]
    have hra := replChar_of_notMem (a := 45) (b := 47)
      (l := a) (fun hc => by simpa [isDig] using ha 45 hc)
    have hrb := replChar_of_notMem (a := 45) (b := 47)
      (l := b) (fun hc => by simpa [isDig] using hb 45 hc)
    unfold replChar at hra hrb
    rw [hra, hrb]
  have hne : a ++ 45 :: b ≠ [] := by simp
  have h47 : (47 : Nat) ∈ a ++ 47 :: b := by simp
  have hnSP : a ++ 47 :: b ≠ pyStr "SP" := mem_ne h47 (by decide)
  have hnNR : a ++ 47 :: b ≠ pyStr "NR" := mem_ne h47 (by decide)
  have hnEVS : a ++ 47 :: b ≠ pyStr "EVS" := mem_ne h47 (by decide)
  have hnEVENS : a ++ 47 :: b ≠ pyStr "EVENS" := mem_ne h47 (by decide)
  have hsplit1 : (splitSlash (a ++ 47 :: b)).1 = a := by
    unfold splitSlash
    exact takeWhile_append_sep
      (fun c hc => by simp [(isDig_facts (ha c hc)).2.2.2.2.1]) (by simp)
  have hsplit2 : (splitSlash (a ++ 47 :: b)).2 = b := by
    unfold splitSlash
    rw [dropWhile_append_sep
      (fun c hc => by simp [(isDig_facts (ha c hc)).2.2.2.2.1]) (by simp)]
    rfl
  unfold convert_odds_to_fractional
  rw [hstrip, hup, hrep]
  simp only [if_neg hne,
    if_neg (show ¬(a ++ 47 :: b = pyStr "SP" ∨ a ++ 47 :: b = pyStr "NR") by tauto),
    if_neg (show ¬(a ++ 47 :: b = pyStr "EVS" ∨ a ++ 47 :: b = pyStr "EVENS") by tauto),
    if_pos h47, hsplit1, hsplit2, pyFloat_digits ha hA, pyFloat_digits hb hB]
  simp [Nat.cast_pos]

/-! ## Lemmas for the paren-stripping substitution -/

/-- A successful `tryMatch` decomposes the input as
`whitespace ++ ( ++ non-) characters ++ ) ++ rest`. -/
theorem tryMatch_some {z rest : List Nat} (h : tryMatch z = some rest) :
    ∃ w mid, z = w ++ 40 :: mid ++ 41 :: rest ∧
      (∀ c ∈ w, isWS c = true) ∧ ∀ c ∈ mid, c ≠ 41 := by
  unfold tryMatch at h
  split at h
  · rename_i r2 hdrop
    split at h
    · rename_i tail hdrop2
      have htail : tail = rest := by simpa using h
      rw [← htail]
      refine ⟨z.takeWhile isWS, r2.takeWhile (fun c => c != 41), ?_, ?_, ?_⟩
      · have e2 : r2 = r2.takeWhile (fun c => c != 41) ++ 41 :: tail := by
          conv_lhs => rw [← List.takeWhile_append_dropWhile (p := fun c => c != 41) (l := r2)]
          rw [hdrop2]
        have e1 : z = z.takeWhile isWS ++ 40 :: r2 := by
          conv_lhs => rw [← List.takeWhile_append_dropWhile (p := isWS) (l := z)]
          rw [hdrop]
        conv_lhs => rw [e1, e2]
        simp
      · exact fun c hc => List.mem_takeWhile_imp hc
      · intro c hc
        have := List.mem_takeWhile_imp hc
        simpa using this
    · exact absurd h (by simp)
  · exact absurd h (by simp)

theorem tryMatch_some_length {z rest : List Nat} (h : tryMatch z = some rest) :
    rest.length + 2 ≤ z.length := by
  obtain ⟨w, mid, rfl, -, -⟩ := tryMatch_some h
  simp
  omega

theorem tryMatch_some_suffix {z rest : List Nat} (h : tryMatch z = some rest) :
    rest.Sublist z := by
  obtain ⟨w, mid, rfl, -, -⟩ := tryMatch_some h
  refine List.Sublist.trans ?_ (List.sublist_append_right (w ++ 40 :: mid) (41 :: rest))
  exact List.sublist_cons_self 41 rest

theorem tryMatch_some_bad {z rest : List Nat} (h : tryMatch z = some rest) :
    ([40, 41] : List Nat).Sublist z := by
  obtain ⟨w, mid, rfl, -, -⟩ := tryMatch_some h
  have h40 : ([40] : List Nat).Sublist (w ++ 40 :: mid) := by
    refine List.Sublist.trans ?_ (List.sublist_append_right w (40 :: mid))
    exact List.cons_sublist_cons.mpr (List.nil_sublist mid)
  have h41 : ([41] : List Nat).Sublist (41 :: rest) :=
    List.cons_sublist_cons.mpr (List.nil_sublist rest)
  exact List.Sublist.append h40 h41

/-- Dropping while not-`)` from a list containing `)` lands on a `)`. -/
theorem dropWhile_mem_head {cs : List Nat} (hmem : (41 : Nat) ∈ cs) :
    ∃ t, cs.dropWhile (fun c => c != 41) = 41 :: t := by
  induction cs with
  | nil => simp at hmem
  | cons a t ih =>
      by_cases ha : a = 41
      · subst ha
        exact ⟨t, by simp [List.dropWhile_cons]⟩
      · rw [List.dropWhile_cons]
        have hpa : ((fun c => c != 41) a) = true := by simpa using ha
        simp only [hpa, if_true]
        refine ih ?_
        rcases List.mem_cons.mp hmem with h | h
        · exact absurd h.symm ha
        · exact h

/-- A failed `tryMatch` at an opening paren means no closing paren follows. -/
theorem tryMatch_none_paren {cs : List Nat} (h : tryMatch (40 :: cs) = none) :
    (41 : Nat) ∉ cs := by
  intro hmem
  obtain ⟨t, ht⟩ := dropWhile_mem_head hmem
  have hd : List.dropWhile isWS (40 :: cs) = 40 :: cs := by
    rw [List.dropWhile_cons]
    simp [isWS]
  unfold tryMatch at h
  rw [hd] at h
  have h2 : (match List.dropWhile (fun c => c != 41) cs with
      | 41 :: tail => some tail
      | _ => none) = (none : Option (List Nat)) := h
  rw [ht] at h2
  simp at h2

theorem bad_iff {z : List Nat} : bad z = true ↔ ([40, 41] : List Nat).Sublist z := by
  induction z with
  | nil => simp [bad]
  | cons c cs ih =>
      rw [bad]
      constructor
      · intro h
        rcases (by simpa using h : (c = 40 ∧ (41 : Nat) ∈ cs) ∨ bad cs = true) with ⟨hc, h41⟩ | hbad
        · subst hc
          exact List.cons_sublist_cons.mpr (List.singleton_sublist.mpr h41)
        · exact List.sublist_cons_of_sublist c (ih.mp hbad)
      · intro h
        rcases List.sublist_cons_iff.mp h with h | ⟨r, hr, hsub⟩
        · simp [ih.mpr h]
        · injection hr with h1 h2
          subst h1
          subst h2
          simp [List.singleton_sublist.mp hsub]

theorem parenRemoveAux_sublist (fuel : Nat) :
    ∀ z : List Nat, (parenRemoveAux fuel z).Sublist z := by
  induction fuel with
  | zero => exact fun z => List.Sublist.refl z
  | succ n ih =>
      intro z
      cases z with
      | nil => simp [parenRemoveAux]
      | cons c cs =>
          simp only [parenRemoveAux]
          split
          · rename_i rest hsome
            exact (ih rest).trans (tryMatch_some_suffix hsome)
          · exact List.cons_sublist_cons.mpr (ih cs)

theorem parenRemoveAux_bad (fuel : Nat) :
    ∀ z : List Nat, z.length ≤ fuel → bad (parenRemoveAux fuel z) = false := by
  induction fuel with
  | zero =>
      intro z hz
      have : z = [] := List.length_eq_zero.mp (Nat.le_zero.mp hz)
      subst this
      rfl
  | succ n ih =>
      intro z hz
      cases z with
      | nil => rfl
      | cons c cs =>
          simp only [parenRemoveAux]
          split
          · rename_i rest hsome
            refine ih rest ?_
            have := tryMatch_some_length hsome
            simp at this hz ⊢
            omega
          · rename_i hnone
            have hcs : cs.length ≤ n := by simp at hz; omega
            have hbad : bad (parenRemoveAux n cs) = false := ih cs hcs
            rw [bad, hbad]
            simp only [Bool.or_false]
            by_cases hc : c = 40
            · subst hc
              have h41 : (41 : Nat) ∉ cs := tryMatch_none_paren hnone
              have h41' : (41 : Nat) ∉ parenRemoveAux n cs :=
                fun hm => h41 ((parenRemoveAux_sublist n cs).subset hm)
              simp [h41']
            · simp [hc]

theorem parenRemoveAux_id (fuel : Nat) :
    ∀ z : List Nat, z.length ≤ fuel → bad z = false → parenRemoveAux fuel z = z := by
  induction fuel with
  | zero =>
      intro z hz _
      have : z = [] := List.length_eq_zero.mp (Nat.le_zero.mp hz)
      subst this
      rfl
  | succ n ih =>
      intro z hz hbad
      cases z with
      | nil => rfl
      | cons c cs =>
          simp only [parenRemoveAux]
          split
          · rename_i rest hsome
            rw [bad_iff.mpr (tryMatch_some_bad hsome)] at hbad
            exact Bool.noConfusion hbad
          · have hcs : cs.length ≤ n := by simp at hz; omega
            have hbcs : bad cs = false := by
              rw [bad] at hbad
              exact (Bool.or_eq_false_iff.mp hbad).2
            rw [ih cs hcs hbcs]

/-- `parenRemove` only deletes characters. -/
theorem parenRemove_sublist (z : List Nat) : (parenRemove z).Sublist z :=
  parenRemoveAux_sublist z.length z

/-- After the substitution no `(` is followed by a `)` any more: the regex
has no match in its own output. -/
theorem bad_parenRemove (z : List Nat) : bad (parenRemove z) = false :=
  parenRemoveAux_bad z.length z (Nat.le_refl _)

/-- On strings where the regex has no match the substitution is the
identity. -/
theorem parenRemove_id {z : List Nat} (h : bad z = false) : parenRemove z = z :=
  parenRemoveAux_id z.length z (Nat.le_refl _) h

theorem bad_mono {z1 z2 : List Nat} (hsub : z1.Sublist z2) (h : bad z2 = false) :
    bad z1 = false := by
  cases hb : bad z1 with
  | false => rfl
  | true =>
      rw [bad_iff.mpr ((bad_iff.mp hb).trans hsub)] at h
      exact Bool.noConfusion h

theorem pyStrip_sublist (l : List Nat) : (pyStrip l).Sublist l := by
  unfold pyStrip
  refine (List.dropWhile_sublist isWS).trans ?_
  have h1 : (l.reverse.dropWhile isWS).Sublist l.reverse := List.dropWhile_sublist isWS
  have h2 := List.reverse_sublist.mpr h1
  rwa [List.reverse_reverse] at h2

/-! ## Filter-to-parens transport of `bad` through the other passes -/

theorem bad_eq_filter (z : List Nat) : bad z = bad (z.filter isParen) := by
  induction z with
  | nil => rfl
  | cons c cs ih =>
      by_cases h40 : c = 40
      · subst h40
        have : (40 : Nat) ∈ List.filter isParen (40 :: cs) := by
          simp [List.filter_cons, isParen]
        rw [bad, List.filter_cons]
        simp only [show isParen 40 = true from rfl, if_true]
        rw [bad, ih]
        have hc : cs.contains 41 = ((cs.filter isParen).contains 41) := by
          by_cases h : (41 : Nat) ∈ cs
          · have h2 : (41 : Nat) ∈ cs.filter isParen := List.mem_filter.mpr ⟨h, rfl⟩
            simp [h, h2]
          · have h2 : (41 : Nat) ∉ cs.filter isParen := fun hm => h (List.mem_filter.mp hm).1
            simp [h, h2]
        rw [hc]
      · by_cases h41 : c = 41
        · subst h41
          rw [bad, List.filter_cons]
          simp only [show isParen 41 = true from rfl, if_true]
          rw [bad, ih]
          simp
        · rw [bad, List.filter_cons]
          have : isParen c = false := by simp [isParen, h40, h41]
          simp only [this, Bool.false_eq_true, if_false]
          rw [ih]
          simp [h40]

theorem filter_repl2 (z : List Nat) :
    (repl2 z).filter isParen = z.filter isParen := by
  induction z with
  | nil => rfl
  | cons c cs ih =>
      simp only [repl2, List.map_cons, List.filter_cons]
      by_cases h : c = 45 ∨ c = 95
      · have h32 : isParen 32 = false := rfl
        have hcp : isParen c = false := by
          rcases h with h | h <;> subst h <;> rfl
        simp only [if_pos h, List.filter_cons, h32, hcp, Bool.false_eq_true, if_false]
        exact ih
      · simp only [if_neg h, List.filter_cons]
        cases hcp : isParen c <;> simp [hcp] <;> exact ih

theorem filter_collapseGo (z : List Nat) :
    ∀ b, (collapseGo b z).filter isParen = z.filter isParen := by
  induction z with
  | nil => intro b; rfl
  | cons c cs ih =>
      intro b
      by_cases hws : isWS c = true
      · have hcp : isParen c = false := by
          cases hp : isParen c with
          | false => rfl
          | true =>
              have : c = 40 ∨ c = 41 := by simpa [isParen] using hp
              rcases this with h | h <;> subst h <;> simp [isWS] at hws
        cases b with
        | true => simp [collapseGo, hws, List.filter_cons, hcp, ih true]
        | false =>
            simp [collapseGo, hws, List.filter_cons, hcp, ih true,
              show isParen 32 = false from rfl]
      · simp only [collapseGo, hws, Bool.false_eq_true, if_false, List.filter_cons]
        cases hcp : isParen c <;> simp [hcp, ih false]

/-! ## Character classes through the normalization passes -/

theorem collapseGo_mem {a : Nat} {z : List Nat} :
    ∀ b, a ∈ collapseGo b z → a = 32 ∨ a ∈ z := by
  induction z with
  | nil => intro b h; simp [collapseGo] at h
  | cons c cs ih =>
      intro b h
      by_cases hws : isWS c = true
      · cases b with
        | true =>
            simp only [collapseGo, hws, if_true] at h
            rcases ih true h with h | h
            · exact Or.inl h
            · exact Or.inr (List.mem_cons_of_mem c h)
        | false =>
            simp only [collapseGo, hws, if_true] at h
            rcases List.mem_cons.mp h with h | h
            · exact Or.inl h
            · rcases ih true h with h | h
              · exact Or.inl h
              · exact Or.inr (List.mem_cons_of_mem c h)
      · simp only [collapseGo, hws, Bool.false_eq_true, if_false] at h
        rcases List.mem_cons.mp h with h | h
        · exact Or.inr (h ▸ List.mem_cons_self c cs)
        · rcases ih false h with h | h
          · exact Or.inl h
          · exact Or.inr (List.mem_cons_of_mem c h)

theorem repl2_mem {a : Nat} {z : List Nat} (h : a ∈ repl2 z) :
    a = 32 ∨ (a ∈ z ∧ a ≠ 45 ∧ a ≠ 95) := by
  obtain ⟨c, hc, hfc⟩ := List.mem_map.mp h
  by_cases hcv : c = 45 ∨ c = 95
  · rw [if_pos hcv] at hfc
    exact Or.inl hfc.symm
  · rw [if_neg hcv] at hfc
    subst hfc
    exact Or.inr ⟨hc, fun e => hcv (Or.inl e), fun e => hcv (Or.inr e)⟩

theorem repl2_no45 {z : List Nat} : (45 : Nat) ∉ repl2 z ∧ (95 : Nat) ∉ repl2 z := by
  constructor <;> intro h <;> rcases repl2_mem h with h | ⟨-, h45, h95⟩
  · exact absurd h (by decide)
  · exact h45 rfl
  · exact absurd h (by decide)
  · exact h95 rfl

theorem repl2_of_no {z : List Nat} (h45 : (45 : Nat) ∉ z) (h95 : (95 : Nat) ∉ z) :
    repl2 z = z := by
  induction z with
  | nil => rfl
  | cons c cs ih =>
      simp only [repl2, List.map_cons]
      rw [if_neg (show ¬(c = 45 ∨ c = 95) by
        rintro (h | h) <;> subst h
        · exact h45 (List.mem_cons_self _ _)
        · exact h95 (List.mem_cons_self _ _))]
      have := ih (fun h => h45 (List.mem_cons_of_mem c h))
        (fun h => h95 (List.mem_cons_of_mem c h))
      simp only [repl2] at this
      rw [this]

theorem pyLower_noUp {l : List Nat} : ∀ c ∈ pyLower l, ¬(65 ≤ c ∧ c ≤ 90) := by
  intro c hc
  obtain ⟨d, hd, hfd⟩ := List.mem_map.mp hc
  by_cases hdv : 65 ≤ d ∧ d ≤ 90
  · rw [if_pos hdv] at hfd
    omega
  · rw [if_neg hdv] at hfd
    subst hfd
    exact hdv

theorem pyLower_of_noUp {l : List Nat} (h : ∀ c ∈ l, ¬(65 ≤ c ∧ c ≤ 90)) :
    pyLower l = l := by
  induction l with
  | nil => rfl
  | cons a t ih =>
      simp only [pyLower, List.map_cons]
      rw [if_neg (h a (by simp))]
      have := ih (fun c hc => h c (by simp [hc]))
      simp only [pyLower] at this
      rw [this]

/-! ## The collapsed-whitespace invariant `okSp` -/

theorem headNotWS_collapseGo_true (z : List Nat) :
    headNotWS (collapseGo true z) = true := by
  induction z with
  | nil => rfl
  | cons c cs ih =>
      by_cases hws : isWS c = true
      · simpa [collapseGo, hws] using ih
      · simp [collapseGo, hws, headNotWS]

theorem okSp_collapseGo (z : List Nat) : ∀ b, okSp (collapseGo b z) = true := by
  induction z with
  | nil => intro b; rfl
  | cons c cs ih =>
      intro b
      by_cases hws : isWS c = true
      · cases b with
        | true => simpa [collapseGo, hws] using ih true
        | false =>
            simp only [collapseGo, hws, if_true]
            simp only [okSp]
            simp [headNotWS_collapseGo_true cs, ih true]
      · simp only [collapseGo, hws, Bool.false_eq_true, if_false]
        simp only [okSp]
        simp [hws, ih false]

theorem collapseGo_true_eq_false {z : List Nat} (h : headNotWS z = true) :
    collapseGo true z = collapseGo false z := by
  cases z with
  | nil => rfl
  | cons c cs =>
      have : isWS c = false := by simpa [headNotWS] using h
      simp [collapseGo, this]

theorem okSp_id {z : List Nat} (h : okSp z = true) : collapseGo false z = z := by
  induction z with
  | nil => rfl
  | cons c cs ih =>
      simp only [okSp, Bool.and_eq_true] at h
      obtain ⟨hcond, hrest⟩ := h
      by_cases hws : isWS c = true
      · have hc32 : c = 32 ∧ headNotWS cs = true := by
          rcases (by simpa using hcond : ¬isWS c = true ∨ c = 32 ∧ headNotWS cs = true) with h | h
          · exact absurd hws h
          · exact h
        simp only [collapseGo, hws, if_true]
        rw [collapseGo_true_eq_false hc32.2, ih hrest, hc32.1]
        simp
      · simp only [collapseGo, hws, Bool.false_eq_true, if_false]
        rw [ih hrest]

theorem okSp_append_right {u v : List Nat} (h : okSp (u ++ v) = true) :
    okSp v = true := by
  induction u with
  | nil => exact h
  | cons a u' ih =>
      rw [List.cons_append] at h
      simp only [okSp, Bool.and_eq_true] at h
      exact ih h.2

theorem okSp_append_left {u v : List Nat} (h : okSp (u ++ v) = true) :
    okSp u = true := by
  induction u with
  | nil => rfl
  | cons a u' ih =>
      rw [List.cons_append] at h
      simp only [okSp, Bool.and_eq_true] at h
      obtain ⟨hcond, hrest⟩ := h
      simp only [okSp, Bool.and_eq_true]
      refine ⟨?_, ih hrest⟩
      rcases (by simpa using hcond : ¬isWS a = true ∨ a = 32 ∧ headNotWS (u' ++ v) = true) with h | h
      · simp [h]
      · obtain ⟨h1, h2⟩ := h
        cases u' with
        | nil => simp [h1, headNotWS]
        | cons d t =>
            rw [List.cons_append] at h2
            simp only [headNotWS] at h2 ⊢
            simp [h1, h2]

theorem okSp_pyStrip {z : List Nat} (h : okSp z = true) : okSp (pyStrip z) = true := by
  unfold pyStrip
  set u := (z.reverse.dropWhile isWS).reverse with hu
  have hz : z = u ++ (z.reverse.takeWhile isWS).reverse := by
    rw [hu, ← List.reverse_append, List.takeWhile_append_dropWhile, List.reverse_reverse]
  have hou : okSp u = true := okSp_append_left (hz ▸ h)
  have husplit : u = u.takeWhile isWS ++ u.dropWhile isWS :=
    (List.takeWhile_append_dropWhile isWS u).symm
  exact okSp_append_right (husplit ▸ hou)

/-! ## Dict and merge lemmas -/

theorem orStr_self (x : List Nat) : orStr x x = x := by
  unfold orStr
  split <;> rfl

theorem orOptStr_self (x : Option (List Nat)) : orOptStr x x = x := by
  unfold orOptStr
  cases x with
  | none => rfl
  | some s => simp

theorem orOptInt_self (x : Option Int) : orOptInt x x = x := by
  unfold orOptInt
  cases x with
  | none => rfl
  | some n => simp

theorem orOptRunner_self (x : Option Runner) : orOptRunner x x = x := by
  unfold orOptRunner
  cases x <;> rfl

theorem alookup_self {ν : Type} {d : List (List Nat × ν)} (hnd : (d.map Prod.fst).Nodup) :
    ∀ e ∈ d, alookup d e.1 = some e.2 := by
  induction d with
  | nil => intro e he; simp at he
  | cons f t ih =>
      intro e he
      rcases List.mem_cons.mp he with he | he
      · subst he
        unfold alookup
        rw [List.find?_cons_of_pos _ (by simp)]
        rfl
      · have hne : f.1 ≠ e.1 := by
          intro hfe
          have h1 : e.1 ∈ t.map Prod.fst := List.mem_map_of_mem Prod.fst he
          rw [List.map_cons] at hnd
          exact (List.nodup_cons.mp hnd).1 (hfe ▸ h1)
        unfold alookup
        rw [List.find?_cons_of_neg _ (by simp [hne])]
        have := ih (by rw [List.map_cons] at hnd; exact (List.nodup_cons.mp hnd).2) e he
        unfold alookup at this
        exact this

theorem alookup_mem {κ ν : Type} [DecidableEq κ] {m : List (κ × ν)} {k : κ} {v : ν}
    (h : alookup m k = some v) : ∃ e ∈ m, e.1 = k ∧ e.2 = v := by
  unfold alookup at h
  cases hf : m.find? (fun e => decide (e.1 = k)) with
  | none => rw [hf] at h; simp at h
  | some e =>
      rw [hf] at h
      refine ⟨e, List.mem_of_find?_eq_some hf, ?_, by simpa using h⟩
      have := List.find?_some hf
      simpa using this

theorem dictMerge_self {d : List (List Nat × List Nat)} (hnd : (d.map Prod.fst).Nodup) :
    dictMerge d d = d := by
  unfold dictMerge
  have h1 : d.map (fun e =>
      match alookup d e.1 with
      | some v => (e.1, v)
      | none => e) = List.map id d :=
    List.map_congr_left (fun e he => by rw [alookup_self hnd e he]; rfl)
  have h2 : d.filter (fun e => (alookup d e.1).isNone) = [] := by
    rw [List.filter_eq_nil_iff]
    intro e he
    rw [alookup_self hnd e he]
    simp
  rw [h1, List.map_id, h2, List.append_nil]

/-- Merging a record with itself changes nothing but `value_score`, which
falls back to the dataclass default 0. -/
theorem mergeRace_self {r : RaceData} (hnd : (r.data_sources.map Prod.fst).Nodup) :
    mergeRace r r = { r with value_score := 0 } := by
  unfold mergeRace
  simp only [Nat.le_refl, if_true, orStr_self, orOptStr_self, orOptInt_self, orOptRunner_self,
    Nat.max_self, dictMerge_self hnd]

/-! ## The dedup fold builds one bucket per distinct key -/

theorem mem_stepOcc {acc : List (List Nat)} {k x : List Nat} :
    x ∈ stepOcc acc k ↔ x ∈ acc ∨ x = k := by
  unfold stepOcc
  split
  · rename_i h
    constructor
    · exact Or.inl
    · rintro (hx | rfl)
      · exact hx
      · exact h
  · simp

theorem mem_foldl_stepOcc (ks : List (List Nat)) :
    ∀ (acc : List (List Nat)) (x : List Nat),
      x ∈ ks.foldl stepOcc acc ↔ x ∈ acc ∨ x ∈ ks := by
  induction ks with
  | nil => intro acc x; simp
  | cons k t ih =>
      intro acc x
      rw [List.foldl_cons, ih (stepOcc acc k) x, mem_stepOcc]
      simp only [List.mem_cons]
      tauto

theorem mem_firstOcc {ks : List (List Nat)} {x : List Nat} :
    x ∈ firstOcc ks ↔ x ∈ ks := by
  unfold firstOcc
  rw [mem_foldl_stepOcc]
  simp

theorem firstOcc_append (ks : List (List Nat)) (k : List Nat) :
    firstOcc (ks ++ [k]) = stepOcc (firstOcc ks) k := by
  unfold firstOcc
  rw [List.foldl_append]
  rfl

theorem bucket_ne_of_mem {k : List Nat} {ps : List RaceData}
    (h : k ∈ ps.map race_key) :
    ps.filter (fun r => decide (race_key r = k)) ≠ [] := by
  obtain ⟨r, hr, hk⟩ := List.mem_map.mp h
  intro he
  rw [List.filter_eq_nil_iff] at he
  exact he r hr (by simp [hk])

theorem mergeBucket_snoc_eq {k : List Nat} {ps : List RaceData} {r : RaceData}
    (hk : race_key r = k)
    (hne : ps.filter (fun r => decide (race_key r = k)) ≠ []) :
    mergeBucket k (ps ++ [r]) = mergeRace (mergeBucket k ps) r := by
  unfold mergeBucket
  rw [List.filter_append]
  have h1 : List.filter (fun r => decide (race_key r = k)) [r] = [r] := by simp [hk]
  rw [h1]
  cases hc : ps.filter (fun r => decide (race_key r = k)) with
  | nil => exact absurd hc hne
  | cons x xs =>
      simp only [List.cons_append]
      rw [List.foldl_append]
      rfl

theorem mergeBucket_snoc_ne {k : List Nat} {ps : List RaceData} {r : RaceData}
    (hk : race_key r ≠ k) :
    mergeBucket k (ps ++ [r]) = mergeBucket k ps := by
  unfold mergeBucket
  rw [List.filter_append]
  have h1 : List.filter (fun r => decide (race_key r = k)) [r] = [] := by simp [hk]
  rw [h1, List.append_nil]

theorem alookup_isSome {κ ν : Type} [DecidableEq κ] {m : List (κ × ν)} {k : κ} :
    (alookup m k).isSome ↔ k ∈ m.map Prod.fst := by
  unfold alookup
  rw [show (Option.map (fun x => x.2) (m.find? fun e => decide (e.1 = k))).isSome =
      (m.find? fun e => decide (e.1 = k)).isSome from by
    cases m.find? fun e => decide (e.1 = k) <;> rfl]
  rw [List.find?_isSome]
  constructor
  · rintro ⟨e, he, hp⟩
    have : e.1 = k := by simpa using hp
    exact this ▸ List.mem_map_of_mem Prod.fst he
  · intro h
    obtain ⟨e, he, hk⟩ := List.mem_map.mp h
    exact ⟨e, he, by simp [hk]⟩

theorem dStep_shape (ps : List RaceData) (r : RaceData) :
    dStep (shapeDict ps) r = shapeDict (ps ++ [r]) := by
  have hfst : (shapeDict ps).map Prod.fst = firstOcc (ps.map race_key) := by
    unfold shapeDict
    rw [List.map_map, show (Prod.fst ∘ fun k => (k, mergeBucket k ps)) = id from rfl,
      List.map_id]
  by_cases hk : race_key r ∈ ps.map race_key
  · have hsome : (alookup (shapeDict ps) (race_key r)).isSome := by
      rw [alookup_isSome, hfst]
      exact mem_firstOcc.mpr hk
    unfold dStep
    rw [if_pos hsome]
    unfold shapeDict
    rw [List.map_map]
    have hro : firstOcc ((ps ++ [r]).map race_key) = firstOcc (ps.map race_key) := by
      rw [List.map_append]
      simp only [List.map_cons, List.map_nil]
      rw [firstOcc_append]
      unfold stepOcc
      rw [if_pos (mem_firstOcc.mpr hk)]
    rw [hro]
    apply List.map_congr_left
    intro k hkmem
    by_cases hke : k = race_key r
    · subst hke
      simp [mergeBucket_snoc_eq rfl (bucket_ne_of_mem hk)]
    · simp [hke, mergeBucket_snoc_ne (fun e => hke e.symm)]
  · have hnone : ¬(alookup (shapeDict ps) (race_key r)).isSome := by
      rw [alookup_isSome, hfst]
      exact fun h => hk (mem_firstOcc.mp h)
    unfold dStep
    rw [if_neg hnone]
    unfold shapeDict
    have hro : firstOcc ((ps ++ [r]).map race_key) =
        firstOcc (ps.map race_key) ++ [race_key r] := by
      rw [List.map_append]
      simp only [List.map_cons, List.map_nil]
      rw [firstOcc_append]
      unfold stepOcc
      rw [if_neg (fun h => hk (mem_firstOcc.mp h))]
    rw [hro, List.map_append]
    congr 1
    · apply List.map_congr_left
      intro k hkmem
      have hkne : race_key r ≠ k := fun e => hk (e ▸ mem_firstOcc.mp hkmem)
      rw [mergeBucket_snoc_ne hkne]
    · simp only [List.map_cons, List.map_nil]
      have hb : mergeBucket (race_key r) (ps ++ [r]) = r := by
        unfold mergeBucket
        rw [List.filter_append]
        have h1 : ps.filter (fun x => decide (race_key x = race_key r)) = [] := by
          rw [List.filter_eq_nil_iff]
          intro a ha
          simp only [decide_eq_true_eq]
          exact fun he => hk (he ▸ List.mem_map_of_mem race_key ha)
        rw [h1]
        simp
      rw [hb]

theorem foldl_dStep_shape (rs : List RaceData) :
    ∀ ps : List RaceData, List.foldl dStep (shapeDict ps) rs = shapeDict (ps ++ rs) := by
  induction rs with
  | nil => intro ps; simp
  | cons r rs' ih =>
      intro ps
      rw [List.foldl_cons, dStep_shape ps r, ih (ps ++ [r])]
      rw [List.append_assoc]
      rfl

/-! ## Stable sort by parsed odds -/

instance : IsTotal Runner favRel := ⟨fun a b => le_total (favKey a) (favKey b)⟩

instance : IsTrans Runner favRel := ⟨fun _ _ _ hab hbc => le_trans hab hbc⟩

theorem favSorted_sorted (rs : List Runner) : List.Sorted favRel (favSorted rs) :=
  List.sorted_insertionSort favRel rs

theorem favSorted_perm (rs : List Runner) : (favSorted rs).Perm rs :=
  List.perm_insertionSort favRel rs

/-- Inserting `x` touches only the elements strictly below `x`'s key, so the
sub-list at any fixed key gains `x` at its front exactly when `x` has that
key. -/
theorem filter_orderedInsert (q : ℚ) (x : Runner) (l : List Runner) :
    (List.orderedInsert favRel x l).filter (fun r => decide (favKey r = q)) =
      if favKey x = q then x :: l.filter (fun r => decide (favKey r = q))
      else l.filter (fun r => decide (favKey r = q)) := by
  induction l with
  | nil =>
      simp only [List.orderedInsert, List.filter]
      by_cases hx : favKey x = q <;> simp [hx]
  | cons y ys ih =>
      simp only [List.orderedInsert]
      by_cases hr : favRel x y
      · rw [if_pos hr]
        by_cases hx : favKey x = q <;> simp [List.filter_cons, hx]
      · rw [if_neg hr]
        have hlt : favKey y < favKey x := not_le.mp hr
        rw [List.filter_cons, ih]
        by_cases hy : favKey y = q
        · have hxq : favKey x ≠ q := by
            intro e
            rw [e, hy] at hlt
            exact lt_irrefl q hlt
          simp [hy, hxq, List.filter_cons]
        · by_cases hx : favKey x = q <;> simp [hy, hx, List.filter_cons]

/-- Stability of the sort: at every key, the runners keep their source
order. -/
theorem favSorted_stable (rs : List Runner) (q : ℚ) :
    (favSorted rs).filter (fun r => decide (favKey r = q)) =
      rs.filter (fun r => decide (favKey r = q)) := by
  unfold favSorted
  induction rs with
  | nil => rfl
  | cons x t ih =>
      rw [List.insertionSort, filter_orderedInsert q x _, ih]
      by_cases hx : favKey x = q <;> simp [List.filter_cons, hx]

/-! ## Claims -/

/-- C1: the shared odds parser `convert_odds_to_fractional` returns 1 when
the input, trimmed and upper-cased, is `EVS` or `EVENS`; returns `N/D` as an
exact value for a fractional form `N/D` with denominator `D > 0`; returns
`d - 1` for a bare decimal with value `d > 1` (integer or digits-point-digits
form); and returns the 999 sentinel for `SP`, `NR`, empty, unparsable input,
and fractions with zero denominator. -/
theorem claim_C1_odds_parsing :
    (∀ l, pyStrip l = [] → convert_odds_to_fractional l = 999)
    ∧ (∀ l, pyUpper (pyStrip l) = pyStr "EVS" ∨ pyUpper (pyStrip l) = pyStr "EVENS" →
        convert_odds_to_fractional l = 1)
    ∧ (∀ l, pyUpper (pyStrip l) = pyStr "SP" ∨ pyUpper (pyStrip l) = pyStr "NR" →
        convert_odds_to_fractional l = 999)
    ∧ (∀ a b, (∀ c ∈ a, isDig c = true) → (∀ c ∈ b, isDig c = true) →
        a ≠ [] → b ≠ [] → 0 < digVal b →
        convert_odds_to_fractional (a ++ 47 :: b) = (digVal a : ℚ) / (digVal b : ℚ))
    ∧ (∀ a b, (∀ c ∈ a, isDig c = true) → (∀ c ∈ b, isDig c = true) →
        a ≠ [] → b ≠ [] → digVal b = 0 →
        convert_odds_to_fractional (a ++ 47 :: b) = 999)
    ∧ (∀ a, (∀ c ∈ a, isDig c = true) → a ≠ [] → 1 < digVal a →
        convert_odds_to_fractional a = (digVal a : ℚ) - 1)
    ∧ (∀ a b, (∀ c ∈ a, isDig c = true) → (∀ c ∈ b, isDig c = true) →
        a ≠ [] → 1 < mant a b →
        convert_odds_to_fractional (a ++ 46 :: b) = mant a b - 1)
    ∧ (∀ l, pyStrip l ≠ [] →
        replChar 45 47 (pyUpper (pyStrip l)) ≠ pyStr "SP" →
        replChar 45 47 (pyUpper (pyStrip l)) ≠ pyStr "NR" →
        replChar 45 47 (pyUpper (pyStrip l)) ≠ pyStr "EVS" →
        replChar 45 47 (pyUpper (pyStrip l)) ≠ pyStr "EVENS" →
        47 ∉ replChar 45 47 (pyUpper (pyStrip l)) →
        pyFloat (replChar 45 47 (pyUpper (pyStrip l))) = none →
        convert_odds_to_fractional l = 999) := by
  refine ⟨fun l h => convert_empty h, fun l h => convert_evs h, fun l h => convert_spnr h,
    ?_, ?_, ?_, ?_,
    fun l h1 h2 h3 h4 h5 h6 h7 => convert_unparsable h1 h2 h3 h4 h5 h6 h7⟩
  · intro a b ha hb hA hB hpos
    rw [convert_frac_general ha hb hA hB, if_pos hpos]
  · intro a b ha hb hA hB hzero
    rw [convert_frac_general ha hb hA hB, if_neg (by omega)]
  · intro a ha hA hgt
    rw [convert_bare_int ha hA, if_pos hgt]
  · intro a b ha hb hA hgt
    rw [convert_point ha hb hA, if_pos hgt]

/-- Witness for C1 at the spec's canonical inputs: `""`, `"EVS"`, `"SP"`,
`"5/2"`, `"5/0"`, `"3"`, `"3.5"`, `"XYZ"`. -/
theorem claim_C1_odds_parsing_witness :
    convert_odds_to_fractional (pyStr "") = 999
    ∧ convert_odds_to_fractional (pyStr "EVS") = 1
    ∧ convert_odds_to_fractional (pyStr "SP") = 999
    ∧ convert_odds_to_fractional (pyStr "5/2") = 5 / 2
    ∧ convert_odds_to_fractional (pyStr "5/0") = 999
    ∧ convert_odds_to_fractional (pyStr "3") = 2
    ∧ convert_odds_to_fractional (pyStr "3.5") = 5 / 2
    ∧ convert_odds_to_fractional (pyStr "XYZ") = 999 := by
  obtain ⟨h1, h2, h3, h4, h5, h6, h7, h8⟩ := claim_C1_odds_parsing
  refine ⟨h1 _ (by decide), h2 _ (Or.inl (by decide)), h3 _ (Or.inl (by decide)),
    ?_, ?_, ?_, ?_, h8 _ (by decide) (by decide) (by decide) (by decide) (by decide)
      (by decide) (by decide)⟩
  · rw [show pyStr "5/2" = [53] ++ 47 :: [50] from by decide,
      h4 [53] [50] (by decide) (by decide) (by decide) (by decide) (by decide)]
    norm_num [show digVal [53] = 5 from rfl, show digVal [50] = 2 from rfl]
  · rw [show pyStr "5/0" = [53] ++ 47 :: [48] from by decide]
    exact h5 [53] [48] (by decide) (by decide) (by decide) (by decide) (by decide)
  · rw [show pyStr "3" = [51] from by decide,
      h6 [51] (by decide) (by decide) (by decide)]
    norm_num [show digVal [51] = 3 from rfl]
  · rw [show pyStr "3.5" = [51] ++ 46 :: [53] from by decide,
      h7 [51] [53] (by decide) (by decide) (by decide) (by decide)]
    decide

/-- C9: the odds parser treats a hyphen as a fraction bar: for numerals `N`
and `D`, `convert_odds_to_fractional` gives the same value on `N-D` as on
`N/D`; in particular `"5-2"` parses to 5/2 = 2.5. -/
theorem claim_C9_hyphen_as_fraction_bar :
    (∀ a b, (∀ c ∈ a, isDig c = true) → (∀ c ∈ b, isDig c = true) →
      a ≠ [] → b ≠ [] →
      convert_odds_to_fractional (a ++ 45 :: b) =
        convert_odds_to_fractional (a ++ 47 :: b))
    ∧ convert_odds_to_fractional (pyStr "5-2") = 5 / 2 := by
  constructor
  · intro a b ha hb hA hB
    rw [convert_hyphen_general ha hb hA hB, convert_frac_general ha hb hA hB]
  · decide

/-- Witness for C9 at `"10-1"` versus `"10/1"`. -/
theorem claim_C9_hyphen_as_fraction_bar_witness :
    convert_odds_to_fractional (pyStr "10-1") =
      convert_odds_to_fractional (pyStr "10/1") := by
  have h := claim_C9_hyphen_as_fraction_bar.1 [49, 48] [49]
    (by decide) (by decide) (by decide) (by decide)
  rw [show pyStr "10-1" = [49, 48] ++ 45 :: [49] from by decide,
    show pyStr "10/1" = [49, 48] ++ 47 :: [49] from by decide]
  exact h

/-- C2 (counterexample): the aggregator does not drop records missing a
mandatory field.  A record with an empty course is keyed under the empty
normalized course, survives `_dedupe_merge` unchanged, and contributes to
the output — there is no skip-count anywhere in `_dedupe_merge`/`_key`. -/
theorem claim_C2_malformed_drop_counterexample :
    ({ sampleRace with course := [] } : RaceData).course = [] ∧
      dedupe_merge [{ sampleRace with course := [] }] =
        [{ sampleRace with course := [] }] := by
  constructor
  · rfl
  · decide

/-- C2 (amended): the aggregator drops nothing.  `_dedupe_merge` outputs
exactly one `Race` per distinct dedup key, in first-occurrence order, each
the left fold of `_merge` over the records sharing that key in arrival
order; every input record — including one missing its course, which is
keyed under the empty normalized course — contributes to the bucket of its
own key.  (Malformed fragments are instead discarded inside the source
adapters, which return `None` per race, with no skip-count in the
aggregator.) -/
theorem claim_C2_no_drop_amended :
    ∀ rs : List RaceData,
      dedupe_merge rs =
        (firstOcc (rs.map race_key)).map (fun k => mergeBucket k rs) ∧
      ∀ r ∈ rs, race_key r ∈ firstOcc (rs.map race_key) := by
  intro rs
  constructor
  · have h := foldl_dStep_shape rs []
    have h0 : shapeDict [] = [] := rfl
    rw [h0] at h
    unfold dedupe_merge
    rw [show ([] : List RaceData) ++ rs = rs from rfl] at h
    rw [h]
    unfold shapeDict
    rw [List.map_map]
    rfl
  · intro r hr
    exact mem_firstOcc.mpr (List.mem_map_of_mem race_key hr)

/-- Witness for C2 (amended) on two records sharing a key. -/
theorem claim_C2_no_drop_amended_witness :
    dedupe_merge [sampleRace, sampleRaceB] =
      (firstOcc ([sampleRace, sampleRaceB].map race_key)).map
        (fun k => mergeBucket k [sampleRace, sampleRaceB]) ∧
    race_key sampleRace ∈ firstOcc ([sampleRace, sampleRaceB].map race_key) := by
  refine ⟨(claim_C2_no_drop_amended [sampleRace, sampleRaceB]).1, ?_⟩
  exact (claim_C2_no_drop_amended [sampleRace, sampleRaceB]).2 sampleRace (by simp)

/-- C3 (counterexample): `_norm_course` is not idempotent.  On `"-a"` one
pass gives `" a"` (the hyphen becomes a space, and nothing strips it because
`strip()` ran before the replacement), while a second pass strips that
leading space and gives `"a"`. -/
theorem claim_C3_norm_course_counterexample :
    norm_course (norm_course (pyStr "-a")) ≠ norm_course (pyStr "-a") := by decide

/-- C3 (amended): a second application of `_norm_course` only strips the
leading/trailing whitespace that the first pass can leave behind:
`_norm_course (_norm_course x) = (_norm_course x).strip()` for every string
`x`; idempotence holds exactly up to that final strip. -/
theorem claim_C3_norm_course_idem_amended :
    ∀ l, norm_course (norm_course l) = pyStrip (norm_course l) := by
  intro l
  by_cases hl : l = []
  · subst hl; rfl
  have hyv : norm_course l = collapseWS (repl2 (parenRemove (pyStrip (pyLower l)))) := by
    unfold norm_course
    rw [if_neg hl]
  set P := parenRemove (pyStrip (pyLower l)) with hPdef
  set y := collapseWS (repl2 P) with hydef
  rw [hyv]
  by_cases hye : y = []
  · rw [hye]; rfl
  have hymem : ∀ c ∈ y, c = 32 ∨ (c ∈ P ∧ c ≠ 45 ∧ c ≠ 95) := by
    intro c hc
    rw [hydef] at hc
    simp only [collapseWS] at hc
    rcases collapseGo_mem false hc with h | h
    · exact Or.inl h
    · rcases repl2_mem h with h | h
      · exact Or.inl h
      · exact Or.inr h
  have hnoUp : ∀ c ∈ y, ¬(65 ≤ c ∧ c ≤ 90) := by
    intro c hc
    rcases hymem c hc with h | ⟨hPm, -, -⟩
    · subst h; omega
    · have h1 : c ∈ pyStrip (pyLower l) := (parenRemove_sublist _).subset hPm
      have h2 : c ∈ pyLower l := (pyStrip_sublist _).subset h1
      exact pyLower_noUp c h2
  have hno45 : (45 : Nat) ∉ y := by
    intro hc
    rcases hymem 45 hc with h | ⟨-, h45, -⟩
    · exact absurd h (by decide)
    · exact h45 rfl
  have hno95 : (95 : Nat) ∉ y := by
    intro hc
    rcases hymem 95 hc with h | ⟨-, -, h95⟩
    · exact absurd h (by decide)
    · exact h95 rfl
  have hbady : bad y = false := by
    have h2 : y.filter isParen = (repl2 P).filter isParen := by
      rw [hydef]
      simp only [collapseWS]
      exact filter_collapseGo _ false
    rw [bad_eq_filter y, h2, filter_repl2 P, ← bad_eq_filter P, hPdef]
    exact bad_parenRemove _
  have hok : okSp y = true := by
    rw [hydef]
    simp only [collapseWS]
    exact okSp_collapseGo _ false
  have hssub := pyStrip_sublist y
  have hbads : bad (pyStrip y) = false := bad_mono hssub hbady
  have h45s : (45 : Nat) ∉ pyStrip y := fun h => hno45 (hssub.subset h)
  have h95s : (95 : Nat) ∉ pyStrip y := fun h => hno95 (hssub.subset h)
  have hoks : okSp (pyStrip y) = true := okSp_pyStrip hok
  have hlow : pyLower y = y := pyLower_of_noUp hnoUp
  unfold norm_course
  rw [if_neg hye, hlow, parenRemove_id hbads, repl2_of_no h45s h95s]
  simp only [collapseWS]
  exact okSp_id hoks

/-- C4: `favorite`/`second_favorite` are the first and second elements of
the runner list stably sorted by parsed fractional odds ascending: the
sorted list is ordered by `convert_odds_to_fractional` of the odds string,
is a permutation of the source list, preserves source order at every tied
key (ties broken by source order; the unknown/SP sentinel 999 sorts last by
this order), a non-empty list always yields a favorite, the favorite's
parsed odds never exceed the second favorite's, and on odds
`["5/2", "EVS", "SP", "10/1"]` the favorite is the `EVS` runner and the
second favorite the `5/2` runner. -/
theorem claim_C4_favorite_ordering :
    (favorite exRunners = some ⟨pyStr "B", pyStr "EVS"⟩ ∧
      secondFavorite exRunners = some ⟨pyStr "A", pyStr "5/2"⟩)
    ∧ (∀ rs : List Runner, List.Sorted favRel (favSorted rs) ∧ (favSorted rs).Perm rs)
    ∧ (∀ (rs : List Runner) (q : ℚ),
        (favSorted rs).filter (fun r => decide (favKey r = q)) =
          rs.filter (fun r => decide (favKey r = q)))
    ∧ (∀ rs : List Runner, rs ≠ [] → ∃ f, favorite rs = some f)
    ∧ (∀ (rs : List Runner) (f s : Runner),
        favorite rs = some f → secondFavorite rs = some s → favKey f ≤ favKey s) := by
  refine ⟨⟨by decide, by decide⟩,
    fun rs => ⟨favSorted_sorted rs, favSorted_perm rs⟩,
    fun rs q => favSorted_stable rs q, ?_, ?_⟩
  · intro rs hne
    unfold favorite
    cases hs : favSorted rs with
    | nil =>
        have := (favSorted_perm rs).length_eq
        rw [hs] at this
        cases rs with
        | nil => exact absurd rfl hne
        | cons a t => simp at this
    | cons a t => exact ⟨a, by simp⟩
  · intro rs f s hf hs
    unfold favorite at hf
    unfold secondFavorite at hs
    have hsorted := favSorted_sorted rs
    cases hfs : favSorted rs with
    | nil => rw [hfs] at hf; simp at hf
    | cons a t =>
        rw [hfs] at hf hs
        cases t with
        | nil => simp at hs
        | cons b t2 =>
            have ha : a = f := by simpa using hf
            have hb : b = s := by simpa using hs
            rw [hfs] at hsorted
            have := (List.sorted_cons.mp hsorted).1 b (by simp)
            rw [← ha, ← hb]
            exact this

/-- Witness for C4 at the canonical example and a singleton list. -/
theorem claim_C4_favorite_ordering_witness :
    favKey ⟨pyStr "B", pyStr "EVS"⟩ ≤ favKey ⟨pyStr "A", pyStr "5/2"⟩
    ∧ ∃ f, favorite [(⟨pyStr "Solo", pyStr "2/1"⟩ : Runner)] = some f := by
  constructor
  · exact claim_C4_favorite_ordering.2.2.2.2 exRunners _ _ (by decide) (by decide)
  · exact claim_C4_favorite_ordering.2.2.2.1 [⟨pyStr "Solo", pyStr "2/1"⟩] (by decide)

/-- C5 (counterexample): `_merge(r, r)` is not equal to `r` in every field.
The constructor call inside `_merge` omits `value_score`, so the merged
record's score falls back to the dataclass default `0.0`; a record whose
score has already been computed (here 1.0) loses it. -/
theorem claim_C5_merge_idem_counterexample :
    mergeRace { sampleRace with value_score := 1 } { sampleRace with value_score := 1 } ≠
      { sampleRace with value_score := 1 } := by decide

/-- C5 (amended): merging a `Race` with itself yields a `Race` equal to the
input in every field except `value_score`, which is reset to the dataclass
default 0.0; full equality holds exactly when the input's `value_score` is
already 0.0 — as it is whenever `_merge` actually runs, because the pipeline
computes scores only after deduplication.  (The dict hypothesis states that
`data_sources` has no duplicate keys, which is an invariant of every Python
dict.) -/
theorem claim_C5_merge_idem_amended :
    ∀ r : RaceData, (r.data_sources.map Prod.fst).Nodup →
      mergeRace r r = { r with value_score := 0 } ∧
      (r.value_score = 0 → mergeRace r r = r) := by
  intro r hnd
  refine ⟨mergeRace_self hnd, fun hv => ?_⟩
  rw [mergeRace_self hnd, ← hv]

/-- Witness for C5 (amended) on a concrete record. -/
theorem claim_C5_merge_idem_amended_witness :
    mergeRace sampleRace sampleRace = sampleRace := by
  have h := claim_C5_merge_idem_amended sampleRace (by decide)
  exact h.2 (by decide)

/-- C6: for records merging under the same dedup key, the merged record's
`field_size` is the maximum of the two inputs' field sizes — merging never
shrinks an observed field size. -/
theorem claim_C6_merge_field_size :
    ∀ a b : RaceData, race_key a = race_key b →
      (mergeRace a b).field_size = max a.field_size b.field_size ∧
      a.field_size ≤ (mergeRace a b).field_size ∧
      b.field_size ≤ (mergeRace a b).field_size := by
  intro a b _
  have hfs : (mergeRace a b).field_size = max a.field_size b.field_size := by
    unfold mergeRace
    by_cases h : b.data_sources.length ≤ a.data_sources.length
    · simp [h]
    · simp [h, Nat.max_comm]
  exact ⟨hfs, by rw [hfs]; exact Nat.le_max_left _ _, by rw [hfs]; exact Nat.le_max_right _ _⟩

/-- Witness for C6: the two sample records share a dedup key (times 13:05
and 13:07 bucket together) and merge to field size `max 5 6 = 6`. -/
theorem claim_C6_merge_field_size_witness :
    race_key sampleRace = race_key sampleRaceB ∧
      (mergeRace sampleRace sampleRaceB).field_size = 6 := by
  have h := claim_C6_merge_field_size sampleRace sampleRaceB (by decide)
  refine ⟨by decide, ?_⟩
  rw [h.1]
  decide

/-- C7: enrichment never overwrites — a race whose `form_guide_url` is
already set (a non-empty link, the only kind the directory holds) passes
through `_enrich_rs_links` unchanged — and enrichment is idempotent: with
the same directory (whose links are all non-empty, as the directory builder
skips falsy links), a second run changes nothing, on one race or on the
whole list.  `dfn` is the race's local-date computation, arbitrary here. -/
theorem claim_C7_enrich_no_overwrite :
    (∀ (dfn : RaceData → List Nat) lookup (r : RaceData) (u : List Nat),
      r.form_guide_url = some u → u ≠ [] → enrich_race dfn lookup r = r)
    ∧ (∀ (dfn : RaceData → List Nat) lookup (r : RaceData),
        (∀ e ∈ lookup, e.2 ≠ ([] : List Nat)) →
        enrich_race dfn lookup (enrich_race dfn lookup r) = enrich_race dfn lookup r)
    ∧ (∀ (dfn : RaceData → List Nat) lookup (rs : List RaceData),
        (∀ e ∈ lookup, e.2 ≠ ([] : List Nat)) →
        enrich_all dfn lookup (enrich_all dfn lookup rs) = enrich_all dfn lookup rs) := by
  have hset : ∀ (dfn : RaceData → List Nat) lookup (r : RaceData) (u : List Nat),
      r.form_guide_url = some u → u ≠ [] → enrich_race dfn lookup r = r := by
    intro dfn lookup r u hu hne
    unfold enrich_race
    split
    · rename_i link hl
      exact if_pos (show truthyOS r.form_guide_url = true by
        rw [hu]
        simp [truthyOS, hne])
    · rfl
  have hidem : ∀ (dfn : RaceData → List Nat) lookup (r : RaceData),
      (∀ e ∈ lookup, e.2 ≠ ([] : List Nat)) →
      enrich_race dfn lookup (enrich_race dfn lookup r) = enrich_race dfn lookup r := by
    intro dfn lookup r hvals
    cases hl : alookup lookup (norm_course r.course, dfn r) with
    | none =>
        have e1 : enrich_race dfn lookup r = r := by
          unfold enrich_race
          rw [hl]
        rw [e1, e1]
    | some link =>
        by_cases ht : truthyOS r.form_guide_url = true
        · have e1 : enrich_race dfn lookup r = r := by
            unfold enrich_race
            rw [hl]
            exact if_pos ht
          rw [e1, e1]
        · have hlink : link ≠ [] := by
            obtain ⟨e, he, -, hv⟩ := alookup_mem hl
            exact hv ▸ hvals e he
          have e1 : enrich_race dfn lookup r =
              { r with form_guide_url := some link,
                       data_sources := dictSet r.data_sources (pyStr "form") (pyStr "R&S") } := by
            unfold enrich_race
            rw [hl]
            exact if_neg ht
          rw [e1]
          unfold enrich_race
          split
          · exact if_pos (show truthyOS (some link) = true by simp [truthyOS, hlink])
          · rfl
  refine ⟨hset, hidem, ?_⟩
  intro dfn lookup rs hvals
  unfold enrich_all
  rw [List.map_map]
  exact List.map_congr_left (fun r _ => hidem dfn lookup r hvals)

/-- Witness for C7 on concrete data: a race with a link already set is
untouched even though the directory has its key, and enriching twice equals
enriching once for a race that does get a link. -/
theorem claim_C7_enrich_no_overwrite_witness :
    enrich_race (fun _ => pyStr "2024-05-01")
        [((pyStr "ascot", pyStr "2024-05-01"), pyStr "L2")]
        { sampleRace with form_guide_url := some (pyStr "L1") } =
      { sampleRace with form_guide_url := some (pyStr "L1") }
    ∧ enrich_race (fun _ => pyStr "2024-05-01")
        [((pyStr "ascot", pyStr "2024-05-01"), pyStr "L2")]
        (enrich_race (fun _ => pyStr "2024-05-01")
          [((pyStr "ascot", pyStr "2024-05-01"), pyStr "L2")] sampleRace) =
      enrich_race (fun _ => pyStr "2024-05-01")
        [((pyStr "ascot", pyStr "2024-05-01"), pyStr "L2")] sampleRace := by
  constructor
  · exact claim_C7_enrich_no_overwrite.1 _ _ _ (pyStr "L1") rfl (by decide)
  · exact claim_C7_enrich_no_overwrite.2.1 _ _ _ (by decide)

/-- C8: when the exact `(normalized course, date)` key is absent from the
enrichment directory, `find_rs_link` falls back to a two-way substring
containment scan (`a in b or b in a`) over the directory entries with the
same date, in directory iteration order, and returns the first match's
link; concretely, normalized course `"ascot"` on `2024-05-01` matches the
directory key `("ascot racecourse", "2024-05-01")` and the link is
returned (the caller stores it on the race as its form-guide link). -/
theorem claim_C8_enrich_substring_fallback :
    (∀ (lookup pre post : List ((List Nat × List Nat) × List Nat))
        (track date_iso ymd nt : List Nat) (d m y : Nat)
        (e : (List Nat × List Nat) × List Nat),
      parseDMY date_iso = some (d, m, y) →
      ymd = natToDigits y ++ 45 :: pad2 m ++ 45 :: pad2 d →
      nt = normalize_track_name track →
      alookup lookup (nt, ymd) = none →
      lookup = pre ++ e :: post →
      e.1.2 = ymd →
      (List.IsInfix nt e.1.1 ∨ List.IsInfix e.1.1 nt) →
      (∀ e' ∈ pre, ¬(e'.1.2 = ymd ∧ (List.IsInfix nt e'.1.1 ∨ List.IsInfix e'.1.1 nt))) →
      find_rs_link track date_iso lookup = some e.2)
    ∧ find_rs_link (pyStr "Ascot") (pyStr "01-05-2024")
        [((pyStr "ascot racecourse", pyStr "2024-05-01"), pyStr "https://rs.example/a.pdf")] =
        some (pyStr "https://rs.example/a.pdf") := by
  constructor
  · intro lookup pre post track date_iso ymd nt d m y e
    intro hparse hymd hnt hnone hsplit hdate hinfix hpre
    subst hymd hnt hsplit
    unfold find_rs_link
    simp only [hparse]
    rw [hnone]
    have hfindpre : pre.find? (fun x =>
        decide (x.1.2 = natToDigits y ++ 45 :: pad2 m ++ 45 :: pad2 d) &&
          (decide (List.IsInfix (normalize_track_name track) x.1.1) ||
            decide (List.IsInfix x.1.1 (normalize_track_name track)))) = none := by
      rw [List.find?_eq_none]
      intro x hx
      have := hpre x hx
      simp only [Bool.and_eq_true, Bool.or_eq_true, decide_eq_true_eq]
      tauto
    rw [List.find?_append, hfindpre,
      List.find?_cons_of_pos _ (by
        simp only [Bool.and_eq_true, Bool.or_eq_true, decide_eq_true_eq]
        exact ⟨hdate, hinfix⟩)]
    rfl
  · decide

/-- Witness for C8: the substring fallback fires on a concrete directory. -/
theorem claim_C8_enrich_substring_fallback_witness :
    find_rs_link (pyStr "Ascot") (pyStr "01-05-2024")
      [((pyStr "newmarket", pyStr "2024-05-01"), pyStr "L0"),
       ((pyStr "ascot racecourse", pyStr "2024-05-01"), pyStr "L1")] =
      some (pyStr "L1") := by
  refine claim_C8_enrich_substring_fallback.1
    [((pyStr "newmarket", pyStr "2024-05-01"), pyStr "L0"),
     ((pyStr "ascot racecourse", pyStr "2024-05-01"), pyStr "L1")]
    [((pyStr "newmarket", pyStr "2024-05-01"), pyStr "L0")] []
    (pyStr "Ascot") (pyStr "01-05-2024") (pyStr "2024-05-01") (pyStr "ascot")
    1 5 2024
    ((pyStr "ascot racecourse", pyStr "2024-05-01"), pyStr "L1")
    (by decide) (by decide) (by decide) (by decide) (by decide) (by decide) ?_ ?_
  · exact Or.inl (by decide)
  · intro e' he'
    have : e' = ((pyStr "newmarket", pyStr "2024-05-01"), pyStr "L0") := by
      simpa using he'
    subst this
    rintro ⟨-, h | h⟩ <;> revert h <;> decide

/-- C10: `_round_time` is total and never raises: on input parseable as
`"HH:MM"` it reformats with the minutes floored to the lower multiple of the
default 5-minute bucket (the floored value is a multiple of 5, at most the
parsed minute, and less than 5 below it); on any other input it returns the
input unchanged instead of propagating the parse error. -/
theorem claim_C10_round_time_total :
    (∀ l h m, parseHHMM l = some (h, m) →
      round_time 5 l = pad2 h ++ 58 :: pad2 (m / 5 * 5) ∧
        (m / 5 * 5) % 5 = 0 ∧ m / 5 * 5 ≤ m ∧ m - m / 5 * 5 < 5)
    ∧ (∀ l, parseHHMM l = none → round_time 5 l = l) := by
  constructor
  · intro l h m hp
    unfold round_time
    rw [hp]
    exact ⟨rfl, by omega, by omega, by omega⟩
  · intro l hp
    unfold round_time
    rw [hp]

/-- Witness for C10: `"14:07"` buckets to `"14:05"`; `"garbage"` passes
through unchanged. -/
theorem claim_C10_round_time_total_witness :
    round_time 5 (pyStr "14:07") = pyStr "14:05"
    ∧ round_time 5 (pyStr "garbage") = pyStr "garbage" := by
  constructor
  · have h := (claim_C10_round_time_total.1 (pyStr "14:07") 14 7 (by decide)).1
    rw [h]
    decide
  · exact claim_C10_round_time_total.2 (pyStr "garbage") (by decide)

end Digest
